import Mathlib

set_option autoImplicit false

/-
Shallow embedding of the robertomaluco agent core (logger.py, json_utils.py,
agent/modes.py, agent/tools.py, agent/gemini.py) and proofs about it.

Python data produced by json.loads and friends is modelled by the inductive
type JVal (JSON-like values: None, bool, int, str, list, dict).  Python dicts
are modelled as association lists in insertion order with unique keys; lookups
take the last binding to match json.loads duplicate-key semantics.  Python
strings are Lean strings (sequences of code points); slicing, lower-casing and
the substring test are implemented over the underlying character lists.
Network calls are modelled as oracle parameters; clock reads are passed in
explicitly (monotonic times in milliseconds, so the int((b - a) * 1000)
duration computation in logger.py becomes plain integer subtraction).
Exceptions are modelled with Except String, carrying the exception message.
-/

/- ===================== Python string primitives ===================== -/

/-- Character-list version of the test "xs is a leading segment of ys". -/
def starts_with : List Char → List Char → Bool
  | [], _ => true
  | _ :: _, [] => false
  | a :: as, b :: bs => a = b && starts_with as bs

/-- Character-list version of the Python substring test (needle in hay). -/
def contains_chars (needle : List Char) : List Char → Bool
  | [] => starts_with needle []
  | c :: rest => starts_with needle (c :: rest) || contains_chars needle rest

/-- Python str.lower, modelled per character. -/
def py_lower (s : String) : String := String.mk (s.data.map Char.toLower)

/-- Python membership test (needle in hay) on strings. -/
def py_in (needle hay : String) : Bool := contains_chars needle.data hay.data

/-- Python str.startswith on strings. -/
def py_startswith (s pre : String) : Bool := starts_with pre.data s.data

/-- Drop leading whitespace characters (Python str.lstrip). -/
def py_lstrip_chars (s : List Char) : List Char := s.dropWhile Char.isWhitespace

/-- Drop trailing whitespace characters (Python str.rstrip). -/
def py_rstrip_chars (s : List Char) : List Char :=
  ((s.reverse.dropWhile Char.isWhitespace)).reverse

/-- Python str.strip with no arguments: whitespace on both ends. -/
def py_strip_chars (s : List Char) : List Char := py_rstrip_chars (py_lstrip_chars s)

/-- Python str.strip on strings. -/
def py_strip (s : String) : String := String.mk (py_strip_chars s.data)

/-- Python str.splitlines restricted to the newline separator: pieces between
newlines, with a final empty piece dropped (so "a\n".splitlines() = ["a"]). -/
def py_splitlines (s : List Char) : List (List Char) :=
  let pieces := s.splitOn '\n'
  if pieces.getLast? = some [] then pieces.dropLast else pieces

/-- Python "\n".join over character lists. -/
def join_newline : List (List Char) → List Char
  | [] => []
  | [l] => l
  | l :: rest => l ++ '\n' :: join_newline rest

/- ===================== JSON-like Python values ===================== -/

/-- Values produced by json.loads: None, bool, int, str, list, dict.  (JSON
floats are outside this model; none of the verified code paths produce or
consume them.)  Dicts are association lists in insertion order. -/
inductive JVal where
  | jnull
  | jbool (b : Bool)
  | jnum (n : Int)
  | jstr (s : String)
  | jarr (xs : List JVal)
  | jobj (kvs : List (String × JVal))
deriving Repr, Inhabited

/-- Last binding of a key in an association list.  On the unique-key lists
that model Python dicts this is the dict entry; on lists built by the JSON
decoder with duplicate keys it matches the last-binding-wins semantics of
json.loads. -/
def lookup_last (kvs : List (String × JVal)) (k : String) : Option JVal :=
  match kvs with
  | [] => none
  | (k1, v) :: rest =>
    match lookup_last rest k with
    | some r => some r
    | none => if k1 = k then some v else none

/-- Python dict.get(k) (None when absent), guarded on the value being a dict. -/
def jget (v : JVal) (k : String) : Option JVal :=
  match v with
  | .jobj kvs => lookup_last kvs k
  | _ => none

/-- Python dict.get(k, default). -/
def jgetD (v : JVal) (k : String) (default : JVal) : JVal :=
  match jget v k with
  | some r => r
  | none => default

/-- Python truthiness of a JSON-like value. -/
def py_truthy : JVal → Bool
  | .jnull => false
  | .jbool b => b
  | .jnum n => n != 0
  | .jstr s => s.data != []
  | .jarr xs => !xs.isEmpty
  | .jobj kvs => !kvs.isEmpty

/-- Python truthiness of an optional value (None is falsy). -/
def py_truthy_opt : Option JVal → Bool
  | none => false
  | some v => py_truthy v

/-- Python str() of a JSON-like value, used in f-string error messages.
Container values are rendered as JSON rather than Python repr, which is
accurate for the string/number/bool/None cases the messages are built from. -/
def py_str : JVal → String
  | .jnull => "None"
  | .jbool true => "True"
  | .jbool false => "False"
  | .jnum n => toString n
  | .jstr s => s
  | .jarr _ => "[...]"
  | .jobj _ => "\x7b...\x7d"

/-- One step into a nested JSON-like value: a dict key or a list index. -/
inductive PathElem where
  | key (k : String)
  | idx (i : Nat)

/-- Navigate a nested JSON-like value along a path of keys and indices. -/
def get_path : JVal → List PathElem → Option JVal
  | v, [] => some v
  | .jobj kvs, .key k :: p =>
    match lookup_last kvs k with
    | some v => get_path v p
    | none => none
  | .jarr xs, .idx i :: p =>
    match xs.get? i with
    | some v => get_path v p
    | none => none
  | _, _ => none

/- ===================== logger.py ===================== -/

/-- The key words of logger._safe_value whose presence in a lower-cased string
value triggers redaction. -/
def redaction_markers : List String := ["token", "authorization", "api_key", "secret"]

/-- The redaction test of logger._safe_value: some marker occurs in the
lower-cased string. -/
def mentions_secret (s : String) : Bool :=
  redaction_markers.any (fun t => py_in t (py_lower s))

mutual
/-- logger._safe_value: strings are redacted when they mention a marker, else
truncated past 2000 characters; dicts and lists are rewritten recursively
(dict keys pass through str(k), the identity on strings); anything else is
returned unchanged. -/
def safe_value : JVal → JVal
  | .jstr value =>
    if mentions_secret value then .jstr "[REDACTED]"
    else if 2000 < value.data.length then
      .jstr (String.mk (value.data.take 2000) ++ "...[truncated]")
    else .jstr value
  | .jobj kvs => .jobj (safe_value_kvs kvs)
  | .jarr xs => .jarr (safe_value_items xs)
  | .jnull => .jnull
  | .jbool b => .jbool b
  | .jnum n => .jnum n

/-- The dict comprehension of logger._safe_value. -/
def safe_value_kvs : List (String × JVal) → List (String × JVal)
  | [] => []
  | (k, v) :: rest => (k, safe_value v) :: safe_value_kvs rest

/-- The list comprehension of logger._safe_value. -/
def safe_value_items : List JVal → List JVal
  | [] => []
  | v :: rest => safe_value v :: safe_value_items rest
end

/-- logger.TraceEvent (name, status, timestamp, data). -/
structure TraceEvent where
  name : String
  status : String
  timestamp : String
  data : List (String × JVal)

/-- logger.TraceEvent.as_dict. -/
def TraceEvent.as_dict (e : TraceEvent) : JVal :=
  .jobj [("name", .jstr e.name), ("status", .jstr e.status),
         ("timestamp", .jstr e.timestamp), ("data", safe_value (.jobj e.data))]

/-- logger.TraceSpan.  A recursive inductive because spans own child spans.
started_at_monotonic and duration_ms are integer milliseconds: the source
computes int((time.monotonic() - self.started_at_monotonic) * 1000) from
float seconds, modelled here as subtraction of millisecond clock readings. -/
inductive TraceSpan where
  | mk (name : String) (status : String) (started_at : String)
       (started_at_monotonic : Int) (finished_at : Option String)
       (duration_ms : Option Int) (data : List (String × JVal))
       (events : List TraceEvent) (children : List TraceSpan)

/-- Field projection for TraceSpan. -/
def TraceSpan.status : TraceSpan → String
  | .mk _ st _ _ _ _ _ _ _ => st

/-- Field projection for TraceSpan. -/
def TraceSpan.finished_at : TraceSpan → Option String
  | .mk _ _ _ _ f _ _ _ _ => f

/-- Field projection for TraceSpan. -/
def TraceSpan.duration_ms : TraceSpan → Option Int
  | .mk _ _ _ _ _ d _ _ _ => d

/-- Field projection for TraceSpan. -/
def TraceSpan.data : TraceSpan → List (String × JVal)
  | .mk _ _ _ _ _ _ d _ _ => d

/-- Python dict.update on insertion-ordered association lists with unique
keys: existing keys are overwritten in place, new keys are appended in order. -/
def dict_update (d upd : List (String × JVal)) : List (String × JVal) :=
  (d.map (fun kv =>
    match lookup_last upd kv.1 with
    | some v => (kv.1, v)
    | none => kv)) ++
  upd.filter (fun kv => (lookup_last d kv.1).isNone)

/-- logger.TraceSpan.finish: an early return when finished_at is already set,
otherwise the status freeze, timestamps, duration and data update.  The two
clock reads of the source (datetime.now for finished_at, time.monotonic for
the duration) are the explicit arguments now_iso and now_mono. -/
def TraceSpan.finish (s : TraceSpan) (status : String) (now_iso : String)
    (now_mono : Int) (extra : List (String × JVal)) : TraceSpan :=
  match s with
  | .mk name _ started_at started_mono none _ data events children =>
    .mk name status started_at started_mono (some now_iso)
      (some (now_mono - started_mono))
      (if extra.isEmpty then data else dict_update data extra)
      events children
  | finished => finished

/-- JVal image of an optional string (Python None becomes JSON null). -/
def opt_str : Option String → JVal
  | none => .jnull
  | some s => .jstr s

/-- JVal image of an optional integer. -/
def opt_num : Option Int → JVal
  | none => .jnull
  | some n => .jnum n

mutual
/-- logger.TraceSpan.as_dict: the serialized span document, with data passed
through _safe_value and events and children serialized recursively. -/
def TraceSpan.as_dict : TraceSpan → JVal
  | .mk name status started_at _ finished_at duration_ms data events children =>
    .jobj [("name", .jstr name), ("status", .jstr status),
           ("started_at", .jstr started_at),
           ("finished_at", opt_str finished_at),
           ("duration_ms", opt_num duration_ms),
           ("data", safe_value (.jobj data)),
           ("events", .jarr (events.map TraceEvent.as_dict)),
           ("children", .jarr (TraceSpan.as_dict_children children))]

/-- The child-span list comprehension of logger.TraceSpan.as_dict. -/
def TraceSpan.as_dict_children : List TraceSpan → List JVal
  | [] => []
  | s :: rest => TraceSpan.as_dict s :: TraceSpan.as_dict_children rest
end

/-- logger.RequestTrace: request id, metadata mapping and the root span. -/
structure RequestTrace where
  request_id : String
  metadata : List (String × JVal)
  started_at : String
  root : TraceSpan

/-- logger.RequestTrace.as_dict. -/
def RequestTrace.as_dict (t : RequestTrace) : JVal :=
  .jobj [("request_id", .jstr t.request_id), ("started_at", .jstr t.started_at),
         ("metadata", safe_value (.jobj t.metadata)),
         ("trace", t.root.as_dict)]

/- ===================== json_utils.py ===================== -/

/-- The opening brace character, kept abstract by code point. -/
def obrace : Char := Char.ofNat 123

/-- The closing brace character, kept abstract by code point. -/
def cbrace : Char := Char.ofNat 125

/-- json_utils.strip_code_fences: trim the text; when it opens with a fence
marker, drop the first line and a trailing line that is exactly a fence,
then trim again. -/
def strip_code_fences (text : String) : String :=
  let stripped := py_strip_chars text.data
  if !starts_with "```".data stripped then String.mk stripped
  else
    let lines := py_splitlines stripped
    let lines :=
      match lines with
      | first :: rest => if starts_with "```".data first then rest else lines
      | [] => lines
    let lines :=
      if (match lines.getLast? with
          | some last => decide (py_strip_chars last = "```".data)
          | none => false)
      then lines.dropLast else lines
    String.mk (py_strip_chars (join_newline lines))

/-- State of the brace-matching scan of extract_first_json_object: the
nesting depth and the in-string and escape-pending flags. -/
structure ScanSt where
  depth : Int
  inString : Bool
  escaped : Bool
deriving Repr, DecidableEq

/-- One character step of the scan loop of extract_first_json_object.
The result is the updated state, or none when this character is the closing
brace that returns the depth to zero (the loop break). -/
def scan_step (st : ScanSt) (c : Char) : Option ScanSt :=
  if st.inString then
    if st.escaped then some { st with escaped := false }
    else if c = '\\' then some { st with escaped := true }
    else if c = '"' then some { st with inString := false }
    else some st
  else if c = '"' then some { st with inString := true }
  else if c = obrace then some { st with depth := st.depth + 1 }
  else if c = cbrace then
    if st.depth - 1 = 0 then none
    else some { st with depth := st.depth - 1 }
  else some st

/-- The scan loop of extract_first_json_object: the offset of the closing
brace that matches, or none when the depth never returns to zero. -/
def find_end (s : List Char) (st : ScanSt) : Option Nat :=
  match s with
  | [] => none
  | c :: cs =>
    match scan_step st c with
    | none => some 0
    | some st1 => (find_end cs st1).map (· + 1)

/-- The scan run without the break: the state after consuming every
character, or none when the loop would have broken inside this block. -/
def scan_all (s : List Char) (st : ScanSt) : Option ScanSt :=
  match s with
  | [] => some st
  | c :: cs =>
    match scan_step st c with
    | none => none
    | some st1 => scan_all cs st1

/-- JSON whitespace accepted between tokens by the decoder. -/
def json_ws (c : Char) : Bool := c = ' ' || c = '\t' || c = '\n' || c = '\r'

/-- String-body decoder of the json.loads model: characters up to the closing
quote, with the escape pairs produced by serializers handled (\" \\ \/ and
the letter escapes; \uXXXX is outside this model). -/
def jstr_body (fuel : Nat) (s : List Char) : Option (List Char × List Char) :=
  match fuel, s with
  | 0, _ => none
  | _, [] => none
  | fuel + 1, c :: cs =>
    if c = '"' then some ([], cs)
    else if c = '\\' then
      match cs with
      | [] => none
      | e :: cs1 =>
        let dec : Option Char :=
          if e = '"' then some '"'
          else if e = '\\' then some '\\'
          else if e = '/' then some '/'
          else if e = 'n' then some '\n'
          else if e = 't' then some '\t'
          else if e = 'r' then some '\r'
          else if e = 'b' then some (Char.ofNat 8)
          else if e = 'f' then some (Char.ofNat 12)
          else none
        match dec with
        | none => none
        | some d =>
          match jstr_body fuel cs1 with
          | some (body, rest) => some (d :: body, rest)
          | none => none
    else
      match jstr_body fuel cs with
      | some (body, rest) => some (c :: body, rest)
      | none => none

/-- Digit-run decoder: the accumulated natural number and the rest. -/
def jdigits (fuel : Nat) (acc : Nat) (s : List Char) : Nat × List Char :=
  match fuel, s with
  | 0, _ => (acc, s)
  | fuel + 1, c :: cs =>
    if c.isDigit then jdigits fuel (acc * 10 + (c.toNat - 48)) cs
    else (acc, s)
  | _, [] => (acc, s)

mutual
/-- Value decoder of the json.loads model (fuelled recursive descent over
JSON texts restricted to the value grammar of JVal). -/
def jdecode (fuel : Nat) (s : List Char) : Option (JVal × List Char) :=
  match fuel with
  | 0 => none
  | fuel + 1 =>
    let s := s.dropWhile json_ws
    match s with
    | [] => none
    | c :: cs =>
      if c = '"' then
        match jstr_body (cs.length + 1) cs with
        | some (body, rest) => some (.jstr (String.mk body), rest)
        | none => none
      else if c = obrace then
        let cs1 := cs.dropWhile json_ws
        match cs1 with
        | d :: ds =>
          if d = cbrace then some (.jobj [], ds)
          else
            match jdecode_members fuel cs1 with
            | some (kvs, rest) => some (.jobj kvs, rest)
            | none => none
        | [] => none
      else if c = '[' then
        let cs1 := cs.dropWhile json_ws
        match cs1 with
        | d :: ds =>
          if d = ']' then some (.jarr [], ds)
          else
            match jdecode_items fuel cs1 with
            | some (xs, rest) => some (.jarr xs, rest)
            | none => none
        | [] => none
      else if c = 'n' then
        match cs with
        | 'u' :: 'l' :: 'l' :: rest => some (.jnull, rest)
        | _ => none
      else if c = 't' then
        match cs with
        | 'r' :: 'u' :: 'e' :: rest => some (.jbool true, rest)
        | _ => none
      else if c = 'f' then
        match cs with
        | 'a' :: 'l' :: 's' :: 'e' :: rest => some (.jbool false, rest)
        | _ => none
      else if c = '-' then
        match cs with
        | d :: _ =>
          if d.isDigit then
            let (n, rest) := jdigits (cs.length + 1) 0 cs
            some (.jnum (-(n : Int)), rest)
          else none
        | [] => none
      else if c.isDigit then
        let (n, rest) := jdigits (s.length + 1) 0 s
        some (.jnum (n : Int), rest)
      else none

/-- Object-member decoder: a nonempty comma-separated member list up to and
including the closing brace. -/
def jdecode_members (fuel : Nat) (s : List Char) : Option (List (String × JVal) × List Char) :=
  match fuel with
  | 0 => none
  | fuel + 1 =>
    let s := s.dropWhile json_ws
    match s with
    | c :: cs =>
      if c = '"' then
        match jstr_body (cs.length + 1) cs with
        | some (key, rest1) =>
          let rest2 := rest1.dropWhile json_ws
          match rest2 with
          | ':' :: rest3 =>
            match jdecode fuel rest3 with
            | some (v, rest4) =>
              let rest5 := rest4.dropWhile json_ws
              match rest5 with
              | ',' :: rest6 =>
                match jdecode_members fuel rest6 with
                | some (kvs, rest7) => some ((String.mk key, v) :: kvs, rest7)
                | none => none
              | d :: rest6 =>
                if d = cbrace then some ([(String.mk key, v)], rest6) else none
              | [] => none
            | none => none
          | _ => none
        | none => none
      else none
    | [] => none

/-- Array-item decoder: a nonempty comma-separated item list up to and
including the closing bracket. -/
def jdecode_items (fuel : Nat) (s : List Char) : Option (List JVal × List Char) :=
  match fuel with
  | 0 => none
  | fuel + 1 =>
    match jdecode fuel s with
    | some (v, rest) =>
      let rest1 := rest.dropWhile json_ws
      match rest1 with
      | ',' :: rest2 =>
        match jdecode_items fuel rest2 with
        | some (xs, rest3) => some (v :: xs, rest3)
        | none => none
      | ']' :: rest2 => some ([v], rest2)
      | _ => none
    | none => none
end

/-- json.loads model: decode one value and require only whitespace after it. -/
def loads (s : List Char) : Option JVal :=
  match jdecode (s.length + 1) s with
  | some (v, rest) => if rest.dropWhile json_ws = [] then some v else none
  | none => none

/-- Exception message raised when no opening brace is found. -/
def no_object_msg : String := "No JSON object found in text"

/-- Exception message raised when the depth never returns to zero. -/
def unterminated_msg : String := "Unterminated JSON object in text"

/-- Exception message raised when the parsed payload is not a dict. -/
def not_object_msg : String := "Top-level JSON payload must be an object"

/-- Message standing for the json.JSONDecodeError raised out of json.loads
(a ValueError subclass that propagates to the caller of the extractor). -/
def decode_error_msg : String := "Invalid JSON in candidate object"

/-- The scan-and-decode tail of json_utils.extract_first_json_object from the
first opening brace: the matching-brace scan, the slices
candidate[start:end+1] (take) and candidate[end+1:] (drop, then strip), the
json.loads call and the mapping check. -/
def extract_from_brace (fromBrace : List Char) : Except String (JVal × String) :=
  match find_end fromBrace ⟨0, false, false⟩ with
  | none => .error unterminated_msg
  | some endIdx =>
    match loads (fromBrace.take (endIdx + 1)) with
    | none => .error decode_error_msg
    | some payload =>
      match payload with
      | .jobj kvs => .ok (.jobj kvs, String.mk (py_strip_chars (fromBrace.drop (endIdx + 1))))
      | _ => .error not_object_msg

/-- json_utils.extract_first_json_object.  candidate.find and the scan from
that index are expressed by splitting the candidate at its first opening
brace with dropWhile; an empty remainder is the find failure. -/
def extract_first_json_object (text : String) : Except String (JVal × String) :=
  match (strip_code_fences text).data.dropWhile (fun c => c ≠ obrace) with
  | [] => .error no_object_msg
  | fromBrace => extract_from_brace fromBrace

/-- Decimal digit character for a value below ten. -/
def digit_char : Nat → Char
  | 0 => '0' | 1 => '1' | 2 => '2' | 3 => '3' | 4 => '4'
  | 5 => '5' | 6 => '6' | 7 => '7' | 8 => '8' | _ => '9'

/-- Decimal rendering of a natural number onto an accumulator, most
significant digit first. -/
def nat_chars_aux : Nat → List Char → List Char
  | n, acc =>
    if h : n < 10 then digit_char n :: acc
    else nat_chars_aux (n / 10) (digit_char (n % 10) :: acc)
decreasing_by exact Nat.div_lt_self (by omega) (by omega)

/-- Decimal rendering of a natural number. -/
def nat_chars (n : Nat) : List Char := nat_chars_aux n []

/-- Decimal rendering of an integer (the json.dumps image of a Python int). -/
def int_chars (n : Int) : List Char :=
  if n < 0 then '-' :: nat_chars n.natAbs else nat_chars n.toNat

/-- Numeric value of a digit run, most significant digit first. -/
def dval (dl : List Char) : Nat :=
  dl.foldl (fun a c => a * 10 + (c.toNat - 48)) 0

/-- Escape a string body the way a JSON serializer does for the two
characters that would perturb string scanning: quote and backslash. -/
def jescape : List Char → List Char
  | [] => []
  | c :: cs =>
    if c = '"' then '\\' :: '"' :: jescape cs
    else if c = '\\' then '\\' :: '\\' :: jescape cs
    else c :: jescape cs

mutual
/-- Canonical compact JSON serialization of a JVal (the json.dumps image used
to quantify over serialized objects in the extractor round-trip claim). -/
def dumps_chars : JVal → List Char
  | .jnull => "null".data
  | .jbool true => "true".data
  | .jbool false => "false".data
  | .jnum n => int_chars n
  | .jstr s => '"' :: jescape s.data ++ ['"']
  | .jarr xs => '[' :: dumps_items xs ++ [']']
  | .jobj kvs => obrace :: dumps_members kvs ++ [cbrace]

/-- Comma-separated serialization of array items. -/
def dumps_items : List JVal → List Char
  | [] => []
  | [v] => dumps_chars v
  | v :: rest => dumps_chars v ++ ',' :: dumps_items rest

/-- Comma-separated serialization of object members. -/
def dumps_members : List (String × JVal) → List Char
  | [] => []
  | [(k, v)] => '"' :: jescape k.data ++ '"' :: ':' :: dumps_chars v
  | (k, v) :: rest =>
    ('"' :: jescape k.data ++ '"' :: ':' :: dumps_chars v) ++ ',' :: dumps_members rest
end

/-- Characters that may appear unescaped inside a serialized JSON string
without leaving the model of json.loads: everything except control
characters (which json.loads rejects in strings). -/
def jchar_ok (c : Char) : Bool := 32 ≤ c.toNat

mutual
/-- Strings of a value are free of control characters, so that its canonical
serialization is a genuine JSON document. -/
def json_safe : JVal → Bool
  | .jnull => true
  | .jbool _ => true
  | .jnum _ => true
  | .jstr s => s.data.all jchar_ok
  | .jarr xs => json_safe_items xs
  | .jobj kvs => json_safe_members kvs

/-- json_safe over array items. -/
def json_safe_items : List JVal → Bool
  | [] => true
  | v :: rest => json_safe v && json_safe_items rest

/-- json_safe over object members (keys and values). -/
def json_safe_members : List (String × JVal) → Bool
  | [] => true
  | (k, v) :: rest => k.data.all jchar_ok && json_safe v && json_safe_members rest
end

mutual
/-- Fuel sufficient for the decoder on the canonical serialization of a
value: one unit per decoder call. -/
def jfuel : JVal → Nat
  | .jnull => 1
  | .jbool _ => 1
  | .jnum _ => 1
  | .jstr _ => 1
  | .jarr xs => 1 + jfuel_items xs
  | .jobj kvs => 1 + jfuel_members kvs

/-- Decoder fuel for an item list. -/
def jfuel_items : List JVal → Nat
  | [] => 1
  | [v] => 1 + jfuel v
  | v :: rest => 1 + jfuel v + jfuel_items rest

/-- Decoder fuel for a member list. -/
def jfuel_members : List (String × JVal) → Nat
  | [] => 1
  | [(_, v)] => 1 + jfuel v
  | (_, v) :: rest => 1 + jfuel v + jfuel_members rest
end

/- ===================== agent/modes.py ===================== -/

/-- modes.ModeDecision. -/
structure ModeDecision where
  mode : String
  reason : String
deriving Repr, DecidableEq

/-- modes.PLAN_HINTS. -/
def PLAN_HINTS : List String :=
  ["plan mode", "make a plan", "create a plan", "before you code",
   "implementation plan", "review before coding"]

/-- modes.CODE_HINTS. -/
def CODE_HINTS : List String :=
  ["feature", "implement", "ship", "build", "code", "refactor", "bug", "fix",
   "repository", "repo", "pull request", "pr"]

/-- modes.detect_mode: the first matching plan hint wins, then the first
matching code hint (also mapped to plan mode), else chat. -/
def detect_mode (prompt : String) : ModeDecision :=
  let normalized := py_lower (py_strip prompt)
  match PLAN_HINTS.find? (fun hint => py_in hint normalized) with
  | some hint => ⟨"plan", "matched_hint:" ++ hint⟩
  | none =>
    match CODE_HINTS.find? (fun hint => py_in hint normalized) with
    | some hint => ⟨"plan", "matched_code_hint:" ++ hint⟩
    | none => ⟨"chat", "default"⟩

/-- modes.build_plan_prompt.  PlanSchema.model_json_schema() is a fixed
pydantic-generated mapping; its rendering is the schema_text parameter. -/
def build_plan_prompt (schema_text : String) (user_prompt : String) : String :=
  "You are in plan mode. Analyze the request and return only JSON matching this schema. " ++
  "Do not include markdown fences or commentary.\n\n" ++
  "Schema:\n" ++ schema_text ++ "\n\n" ++
  "User request:\n" ++ user_prompt

/- ===================== agent/tools.py ===================== -/

/-- tools.RepoAccess (owner, repo, branch), as used by the gemini provider.
respond builds it from a matched URL, so the pydantic slug sanitizer is the
identity on these values. -/
structure RepoAccess where
  owner : String
  repo : String
  branch : String
deriving Repr, DecidableEq

/-- tools.WriteFileInput. -/
structure WriteFileInput where
  path : String
  content : String
  commit_message : String
  branch : Option String
deriving Repr, DecidableEq

/-- tools.PullRequestInput. -/
structure PullRequestInput where
  title : String
  body : String
  head_branch : String
  base_branch : String
deriving Repr, DecidableEq

/-- The field names declared on WriteFileInput, for the extra=forbid check. -/
def write_file_fields : List String := ["path", "content", "commit_message", "branch"]

/-- The field names declared on PullRequestInput, for the extra=forbid check. -/
def pull_request_fields : List String := ["title", "body", "head_branch", "base_branch"]

/-- Read a required nonempty-string field of a pydantic model
(Field(min_length=1)). -/
def required_str_field (args : List (String × JVal)) (field : String) : Except String String :=
  match lookup_last args field with
  | some (.jstr s) => if s.data.isEmpty then .error ("validation error: " ++ field) else .ok s
  | _ => .error ("validation error: " ++ field)

/-- tools.WriteFileInput.model_validate over a decoded arguments dict:
required strings path (min length 1), content, commit_message (min length 1),
optional branch (string or null), and extra keys forbidden. -/
def WriteFileInput.model_validate (args : List (String × JVal)) : Except String WriteFileInput :=
  if !(args.all (fun kv => write_file_fields.contains kv.1)) then
    .error "validation error: extra fields forbidden"
  else do
    let path ← required_str_field args "path"
    let content ←
      match lookup_last args "content" with
      | some (.jstr s) => Except.ok s
      | _ => Except.error "validation error: content"
    let commit_message ← required_str_field args "commit_message"
    let branch ←
      match lookup_last args "branch" with
      | none => Except.ok none
      | some .jnull => Except.ok none
      | some (.jstr s) => Except.ok (some s)
      | some _ => Except.error "validation error: branch"
    .ok ⟨path, content, commit_message, branch⟩

/-- tools.PullRequestInput.model_validate over a decoded arguments dict:
required strings title and head_branch (min length 1), body defaulting to the
empty string, base_branch defaulting to main (min length 1), extra keys
forbidden. -/
def PullRequestInput.model_validate (args : List (String × JVal)) : Except String PullRequestInput :=
  if !(args.all (fun kv => pull_request_fields.contains kv.1)) then
    .error "validation error: extra fields forbidden"
  else do
    let title ← required_str_field args "title"
    let body ←
      match lookup_last args "body" with
      | none => Except.ok ""
      | some (.jstr s) => Except.ok s
      | some _ => Except.error "validation error: body"
    let head_branch ← required_str_field args "head_branch"
    let base_branch ←
      match lookup_last args "base_branch" with
      | none => Except.ok "main"
      | some (.jstr s) => if s.data.isEmpty then Except.error "validation error: base_branch" else Except.ok s
      | some _ => Except.error "validation error: base_branch"
    .ok ⟨title, body, head_branch, base_branch⟩

/-- The GithubTools methods used by tool dispatch, as an oracle over the
repository-mutation interface (each network-backed method is a function that
either returns its value or raises).  The RepoAccess argument of every
method is fixed by the enclosing workflow, so it is not repeated here.
repo_info is the decoded response of the GET /repos/owner/repo request that
both ensure_repo_write_access and get_default_branch issue. -/
abbrev RepoResponse := List (String × JVal)

structure GithubOracle where
  repo_info : Except String RepoResponse
  get_default_branch : Except String String
  create_branch : JVal → Option JVal → Except String String
  list_files : Option JVal → Except String (List String)
  read_file : JVal → Option JVal → Except String String
  write_file : WriteFileInput → Except String String
  create_pull_request : PullRequestInput → Except String String

/-- The exception message of tools.GithubTools.ensure_repo_write_access. -/
def no_push_access_msg : String :=
  "GITHUB_TOKEN has no push access to this repo. " ++
  "Use a token with repo write permissions (Contents + Pull requests)."

/-- tools.GithubTools.ensure_repo_write_access, given the decoded repository
response: raise exactly when the response has a permissions mapping whose
push entry (defaulting to False when absent) is not truthy. -/
def ensure_repo_write_access (repo : RepoResponse) : Except String Unit :=
  match lookup_last repo "permissions" with
  | some (.jobj permissions) =>
    if !py_truthy (jgetD (.jobj permissions) "push" (.jbool false)) then
      .error no_push_access_msg
    else .ok ()
  | _ => .ok ()

/- ===================== agent/gemini.py ===================== -/

/-- The decoded action of one loop iteration (gemini._parse_action output as
consumed by respond): the tool name and arguments values of a tool_call
payload, or the message value of a final payload. -/
inductive AgentAction where
  | tool_call (tool : JVal) (arguments : JVal)
  | final (message : JVal)
deriving Repr

/-- Python == between a decoded JSON value and a string literal. -/
def jval_eq_str (v : JVal) (s : String) : Bool :=
  match v with
  | .jstr t => t = s
  | _ => false

/-- gemini._parse_action: extract the first JSON object from the model text,
then classify by the type field; tool_call requires a tool key and defaults
arguments to an empty dict, final requires a truthy message; anything else is
an unsupported action.  (The trailing-text warning event is trace-only.) -/
def parse_action (model_text : String) : Except String AgentAction :=
  match extract_first_json_object model_text with
  | .error _ => .error ("Gemini response is not JSON: " ++ model_text)
  | .ok (payload, _trailing) =>
    let action_type := jget payload "type"
    if (match action_type with
        | some t => jval_eq_str t "tool_call"
        | none => false) then
      match jget payload "tool" with
      | none => .error ("Invalid tool_call payload: " ++ py_str payload)
      | some tool => .ok (.tool_call tool (jgetD payload "arguments" (.jobj [])))
    else if (match action_type with
        | some t => jval_eq_str t "final"
        | none => false) then
      let message := jgetD payload "message" .jnull
      if py_truthy message then .ok (.final message)
      else .error ("Invalid final payload: " ++ py_str payload)
    else .error ("Unsupported action type from Gemini: " ++ py_str payload)

/-- The dict items of a decoded arguments value, raising TypeError-style on a
non-dict (the Python code would fail on attribute access; tool_call payloads
carry JSON dicts here). -/
def args_entries (arguments : JVal) : List (String × JVal) :=
  match arguments with
  | .jobj kvs => kvs
  | _ => []

/-- Python arguments[key]: the value or a KeyError. -/
def args_index (arguments : JVal) (key : String) : Except String JVal :=
  match lookup_last (args_entries arguments) key with
  | some v => .ok v
  | none => .error ("KeyError: " ++ key)

/-- The fixed tool-name set of gemini._execute_tool_inner. -/
def known_tool_names : List String :=
  ["get_default_branch", "create_branch", "list_files", "read_file",
   "write_file", "create_pull_request"]

/-- The unknown-tool exception message of gemini._execute_tool_inner. -/
def unknown_tool_msg (tool : JVal) : String :=
  "Unknown tool requested by Gemini: " ++ py_str tool

/-- gemini._execute_tool_inner: dispatch over the fixed tool-name set,
shaping each result dict as in the source, raising on an unknown tool. -/
def execute_tool_inner (gh : GithubOracle) (tool : JVal) (arguments : JVal) :
    Except String JVal :=
  if jval_eq_str tool "get_default_branch" then do
    let b ← gh.get_default_branch
    .ok (.jobj [("default_branch", .jstr b)])
  else if jval_eq_str tool "create_branch" then do
    let new_branch ← args_index arguments "new_branch"
    let from_branch := lookup_last (args_entries arguments) "from_branch"
    let created ← gh.create_branch new_branch from_branch
    .ok (.jobj [("branch", .jstr created)])
  else if jval_eq_str tool "list_files" then do
    let files ← gh.list_files (lookup_last (args_entries arguments) "branch")
    .ok (.jobj [("files", .jarr ((files.take 500).map JVal.jstr)),
                ("total_files", .jnum files.length)])
  else if jval_eq_str tool "read_file" then do
    let path ← args_index arguments "path"
    let content ← gh.read_file path (lookup_last (args_entries arguments) "branch")
    .ok (.jobj [("path", path), ("content", .jstr content)])
  else if jval_eq_str tool "write_file" then do
    let payload ← WriteFileInput.model_validate (args_entries arguments)
    let commit_sha ← gh.write_file payload
    .ok (.jobj [("path", .jstr payload.path), ("commit_sha", .jstr commit_sha)])
  else if jval_eq_str tool "create_pull_request" then do
    let payload ← PullRequestInput.model_validate (args_entries arguments)
    let url ← gh.create_pull_request payload
    .ok (.jobj [("pull_request_url", .jstr url)])
  else .error (unknown_tool_msg tool)

/-- A concrete GitHub oracle for witness instantiations: every method
returns a fixed successful value. -/
def gh_stub : GithubOracle where
  repo_info := .ok []
  get_default_branch := .ok "main"
  create_branch := fun _ _ => .ok "feature"
  list_files := fun _ => .ok []
  read_file := fun _ _ => .ok ""
  write_file := fun _ => .ok "sha0"
  create_pull_request := fun _ => .ok "https://github.com/acme/widgets/pull/4"

/-- provider.AgentResponse (provider name and text). -/
structure AgentResponse where
  provider : String
  text : String
deriving Repr, DecidableEq

/-- gemini.GeminiProvider.name. -/
def gemini_provider_name : String := "gemini"

/-- One history entry of the tool workflow: the raw assistant text and the
tool result dict appended after each executed tool call. -/
structure HistoryEntry where
  assistant : String
  tool_result : JVal
deriving Repr

/-- Characters allowed in the owner and repo groups of the repository URL
pattern ([A-Za-z0-9_.-]). -/
def url_slug_char (c : Char) : Bool :=
  ('A' ≤ c && c ≤ 'Z') || ('a' ≤ c && c ≤ 'z') || ('0' ≤ c && c ≤ '9') ||
  c = '_' || c = '.' || c = '-'

/-- Attempt to match the repository URL pattern at this position: the literal
prefix, a nonempty owner group, a slash, a nonempty repo group. -/
def match_github_at (s : List Char) : Option (String × String) :=
  if starts_with "https://github.com/".data s then
    let after := s.drop "https://github.com/".data.length
    let owner := after.takeWhile url_slug_char
    if owner.isEmpty then none
    else
      match after.drop owner.length with
      | '/' :: rest2 =>
        let repo := rest2.takeWhile url_slug_char
        if repo.isEmpty then none else some (String.mk owner, String.mk repo)
      | _ => none
  else none

/-- Leftmost match of the repository URL pattern (re.search). -/
def find_github_url : List Char → Option (String × String)
  | [] => none
  | c :: rest =>
    match match_github_at (c :: rest) with
    | some r => some r
    | none => find_github_url rest

/-- Python str.removesuffix. -/
def py_removesuffix (s suf : String) : String :=
  if starts_with suf.data.reverse s.data.reverse then
    String.mk (s.data.take (s.data.length - suf.data.length))
  else s

/-- gemini.GeminiProvider._extract_repo_access: angle brackets become spaces,
then the first https://github.com/owner/repo match is taken, with a .git
suffix stripped from the repo and the branch defaulted to main. -/
def extract_repo_access (prompt : String) : Option RepoAccess :=
  let cleaned := prompt.data.map (fun c => if c = '<' || c = '>' then ' ' else c)
  match find_github_url cleaned with
  | none => none
  | some (owner, repo) => some ⟨owner, py_removesuffix repo ".git", "main"⟩

/-- The system instruction text of gemini._build_tool_prompt. -/
def tool_system_text : String :=
  "You are an autonomous software agent. " ++
  "You must output only valid JSON with one of these shapes:\n" ++
  "1) \x7b\"type\":\"tool_call\",\"tool\":\"<name>\",\"arguments\":\x7b...\x7d\x7d\n" ++
  "2) \x7b\"type\":\"final\",\"message\":\"<final summary for user>\"\x7d\n\n" ++
  "Available tools:\n" ++
  "- get_default_branch: \x7b\x7d\n" ++
  "- create_branch: \x7bnew_branch: string, from_branch?: string\x7d\n" ++
  "- list_files: \x7bbranch?: string\x7d\n" ++
  "- read_file: \x7bpath: string, branch?: string\x7d\n" ++
  "- write_file: \x7bpath: string, content: string, commit_message: string, branch?: string\x7d\n" ++
  "- create_pull_request: \x7btitle: string, body: string, head_branch: string, base_branch?: string\x7d\n\n" ++
  "Workflow guidance:\n" ++
  "1) Discover files\n" ++
  "2) Read relevant files\n" ++
  "3) Create a branch if needed\n" ++
  "4) Write updated file contents\n" ++
  "5) Open PR\n" ++
  "When done, return a final summary including PR URL.\n" ++
  "Never include markdown code fences."

/-- gemini._build_tool_prompt: the json.dumps serialization of the prompt
dict (rendered with the compact canonical serializer; the source uses the
default json.dumps separators, which differ only in spacing). -/
def build_tool_prompt (user_prompt : String) (access : RepoAccess)
    (history : List HistoryEntry) (now : Int) : String :=
  String.mk (dumps_chars (.jobj
    [("system", .jstr tool_system_text),
     ("repo", .jobj [("owner", .jstr access.owner), ("repo", .jstr access.repo),
                     ("branch", .jstr access.branch)]),
     ("request", .jstr user_prompt),
     ("history", .jarr (history.map (fun h =>
        .jobj [("assistant", .jstr h.assistant), ("tool_result", h.tool_result)]))),
     ("timestamp", .jnum now)]))

/-- The step-limit advisory message returned after the twelfth iteration. -/
def step_limit_message : String :=
  "I couldn\x27t complete the workflow within the step limit."

/-- Terminal state of the tool-workflow loop, carrying the final history so
that history evolution is provable: a final message or the step-limit exit. -/
inductive LoopExit where
  | final (message : String) (history : List HistoryEntry)
  | limit (history : List HistoryEntry)

/-- The response text respond builds from a loop exit. -/
def loop_result_text : LoopExit → String
  | .final message _ => message
  | .limit _ => step_limit_message

/-- The iteration bound of the tool workflow (range(12)). -/
def max_steps : Nat := 12

/-- The for body of gemini.GeminiProvider.respond in the tool workflow, with
the remaining iteration count explicit.  gen is the generation interface
(self._generate_text, one call per iteration, indexed by step), and the
pydantic validation of AgentResponse.text is the string check in the final
branch. -/
def loop_steps (gen : Nat → String → Except String String) (gh : GithubOracle)
    (user_prompt : String) (access : RepoAccess) (now : Int) :
    Nat → Nat → List HistoryEntry → Except String LoopExit
  | 0, _, history => .ok (.limit history)
  | fuel + 1, step_index, history => do
    let prompt := build_tool_prompt user_prompt access history now
    let model_text ← gen step_index prompt
    let action ← parse_action model_text
    match action with
    | .final message =>
      match message with
      | .jstr text => .ok (.final text history)
      | _ => .error "AgentResponse validation error: text must be a string"
    | .tool_call tool arguments => do
      let tool_result ← execute_tool_inner gh tool arguments
      loop_steps gen gh user_prompt access now fuel (step_index + 1)
        (history ++ [⟨model_text, tool_result⟩])

/-- The full 12-iteration tool workflow of respond, from an empty history. -/
def run_tool_workflow (gen : Nat → String → Except String String)
    (gh : GithubOracle) (user_prompt : String) (access : RepoAccess)
    (now : Int) : Except String LoopExit :=
  loop_steps gen gh user_prompt access now max_steps 0 []

/-- gemini.GeminiProvider.respond: the plan branch is a single generation on
the plan prompt; without a repository reference, a single generation on the
raw prompt; otherwise the write-access check followed by the tool workflow.
Trace-span bookkeeping is omitted (it never alters control flow or results). -/
def respond (gen : Nat → String → Except String String) (gh : GithubOracle)
    (schema_text : String) (now : Int) (mode : String) (prompt : String) :
    Except String AgentResponse :=
  if mode = "plan" then do
    let text ← gen 0 (build_plan_prompt schema_text prompt)
    .ok ⟨gemini_provider_name, text⟩
  else
    match extract_repo_access prompt with
    | none => do
      let text ← gen 0 prompt
      .ok ⟨gemini_provider_name, text⟩
    | some access => do
      let repo ← gh.repo_info
      let _ ← ensure_repo_write_access repo
      let result ← run_tool_workflow gen gh prompt access now
      .ok ⟨gemini_provider_name, loop_result_text result⟩

/- ============ gemini.GeminiProvider._generate_text (transport) ============ -/

/-- Outcome of one urlopen call against the generation endpoint. -/
inductive HttpOutcome where
  | success (raw : String)
  | http_error (code : Nat) (detail : String)
  | timeout
  | net_error (reason : String)
deriving Repr, DecidableEq

/-- self.max_retries. -/
def max_retries : Nat := 2

/-- self.request_timeout_seconds. -/
def request_timeout_seconds : Nat := 60

/-- The non-retryable error.HTTPError message (raised on the spot). -/
def api_error_message (code : Nat) (detail : String) : String :=
  "Gemini API error (" ++ toString code ++ "): " ++ detail

/-- The timeout message recorded as last_error on a TimeoutError. -/
def timeout_message (attempt : Nat) : String :=
  "Gemini request timed out after " ++ toString request_timeout_seconds ++
  "s (attempt " ++ toString (attempt + 1) ++ "/" ++ toString (max_retries + 1) ++ ")"

/-- The transport message recorded as last_error on a error.URLError. -/
def network_error_message (reason : String) : String :=
  "Gemini network error: " ++ reason

/-- The attempt loop of _generate_text: range(max_retries + 1) with an
immediate raise on HTTPError, last_error bookkeeping on transport failures
and a break on success.  http models urlopen per attempt; the return value is
the raw body and the pending last_error exactly as at loop exit. -/
def attempt_loop (http : Nat → HttpOutcome) :
    Nat → Nat → String → Option String → Except String (String × Option String)
  | 0, _, raw, last_error => .ok (raw, last_error)
  | fuel + 1, attempt, raw, _ =>
    match http attempt with
    | .success r => .ok (r, none)
    | .http_error code detail => .error (api_error_message code detail)
    | .timeout => attempt_loop http fuel (attempt + 1) raw (some (timeout_message attempt))
    | .net_error reason => attempt_loop http fuel (attempt + 1) raw (some (network_error_message reason))

/-- The empty-response message raised when no text content is present. -/
def missing_text_msg : String := "Gemini response missing text content"

/-- The candidate/part text extraction of _generate_text over the decoded
response body, collecting truthy text values. -/
def collect_candidate_texts (body : JVal) : List JVal :=
  let candidates := match jgetD body "candidates" (.jarr []) with
                    | .jarr xs => xs
                    | _ => []
  candidates.flatMap (fun candidate =>
    let content := jgetD candidate "content" (.jobj [])
    let parts := match jgetD content "parts" (.jarr []) with
                 | .jarr xs => xs
                 | _ => []
    (parts.filterMap (fun part => jget part "text")).filter py_truthy)

/-- Python "\n".join over collected text values, raising TypeError-style on a
non-string element. -/
def join_text_values : List JVal → Except String (List Char)
  | [] => .ok []
  | [.jstr s] => .ok s.data
  | .jstr s :: rest => do
    let tail ← join_text_values rest
    .ok (s.data ++ '\n' :: tail)
  | _ => .error "TypeError: sequence item is not a str"

/-- The body-decoding tail of _generate_text after a successful attempt. -/
def decode_generate_body (raw : String) : Except String String :=
  match loads raw.data with
  | none => .error "json.loads failed on Gemini response body"
  | some body => do
    let joined ← join_text_values (collect_candidate_texts body)
    let combined := py_strip_chars joined
    if combined.isEmpty then .error missing_text_msg
    else .ok (String.mk combined)

/-- gemini.GeminiProvider._generate_text over the per-attempt urlopen oracle:
the attempt loop, the pending last_error raise, then body decoding. -/
def generate_text (http : Nat → HttpOutcome) : Except String String := do
  let (raw, last_error) ← attempt_loop http (max_retries + 1) 0 "" none
  match last_error with
  | some e => .error e
  | none => decode_generate_body raw

/-- Transport-level failures (timeout, connection error): the retry-eligible
attempt outcomes. -/
def transport_failure : HttpOutcome → Prop
  | .timeout => True
  | .net_error _ => True
  | _ => False

/-- The last_error message an attempt outcome leaves behind. -/
def transport_message : HttpOutcome → Nat → String
  | .timeout, attempt => timeout_message attempt
  | .net_error reason, _ => network_error_message reason
  | _, _ => ""

/- ===================== theorems ===================== -/

/-- Helper: safe_value commutes with navigation by keys and indices. -/
theorem lookup_last_safe_value_kvs (kvs : List (String × JVal)) (k : String) :
    lookup_last (safe_value_kvs kvs) k = (lookup_last kvs k).map safe_value := by
  induction kvs with
  | nil => simp [safe_value_kvs, lookup_last]
  | cons kv rest ih =>
    obtain ⟨k1, v⟩ := kv
    simp only [safe_value_kvs, lookup_last, ih]
    cases lookup_last rest k with
    | some r => simp
    | none => by_cases h : k1 = k <;> simp [h]

/-- Helper: safe_value commutes with list indexing. -/
theorem get?_safe_value_items (xs : List JVal) (i : Nat) :
    (safe_value_items xs).get? i = (xs.get? i).map safe_value := by
  induction xs generalizing i with
  | nil => simp [safe_value_items]
  | cons x rest ih =>
    cases i with
    | zero => simp [safe_value_items]
    | succ j => simpa [safe_value_items] using ih j

/-- Helper: the string case of safe_value always yields a string. -/
theorem safe_value_jstr (s : String) : ∃ t, safe_value (.jstr s) = .jstr t := by
  simp only [safe_value]
  split
  · exact ⟨_, rfl⟩
  split
  · exact ⟨_, rfl⟩
  exact ⟨_, rfl⟩

/-- Helper: navigation into the redacted value mirrors navigation into the
original, with safe_value applied at the found position. -/
theorem get_path_safe_value (p : List PathElem) (v : JVal) :
    get_path (safe_value v) p = (get_path v p).map safe_value := by
  induction p generalizing v with
  | nil => simp [get_path]
  | cons e p ih =>
    cases e with
    | key k =>
      cases v with
      | jobj kvs =>
        simp only [safe_value, get_path, lookup_last_safe_value_kvs]
        cases lookup_last kvs k with
        | some w => simpa using ih w
        | none => simp
      | jstr s =>
        obtain ⟨t, ht⟩ := safe_value_jstr s
        simp [ht, get_path]
      | jnull => simp [safe_value, get_path]
      | jbool b => simp [safe_value, get_path]
      | jnum n => simp [safe_value, get_path]
      | jarr xs => simp [safe_value, get_path]
    | idx i =>
      cases v with
      | jarr xs =>
        simp only [safe_value, get_path, get?_safe_value_items]
        cases xs.get? i with
        | some w => simpa using ih w
        | none => simp
      | jstr s =>
        obtain ⟨t, ht⟩ := safe_value_jstr s
        simp [ht, get_path]
      | jnull => simp [safe_value, get_path]
      | jbool b => simp [safe_value, get_path]
      | jnum n => simp [safe_value, get_path]
      | jobj kvs => simp [safe_value, get_path]

/-- Helper: any string value that mentions a marker is the fixed redaction
marker after safe_value, at the same position. -/
theorem get_path_redacts (v : JVal) (p : List PathElem) (s : String)
    (hpos : get_path v p = some (.jstr s)) (hsec : mentions_secret s = true) :
    get_path (safe_value v) p = some (.jstr "[REDACTED]") := by
  rw [get_path_safe_value, hpos]
  simp [safe_value, hsec]

/-- Claim C1 (amended): the code redacts by string value rather than by
containing key: every string value that itself case-insensitively mentions
one of token, authorization, api_key, secret — at any nesting depth through
mappings and sequences — is replaced by the fixed marker in the serialized
documents produced by TraceEvent.as_dict, TraceSpan.as_dict and
RequestTrace.as_dict, so the serialized document never contains such a
string value at that position. -/
theorem C1_redaction_value_based :
    (∀ (v : JVal) (p : List PathElem) (s : String),
      get_path v p = some (.jstr s) → mentions_secret s = true →
      get_path (safe_value v) p = some (.jstr "[REDACTED]")) ∧
    (∀ (e : TraceEvent) (p : List PathElem) (s : String),
      get_path (.jobj e.data) p = some (.jstr s) → mentions_secret s = true →
      get_path (TraceEvent.as_dict e) (.key "data" :: p) = some (.jstr "[REDACTED]")) ∧
    (∀ (sp : TraceSpan) (p : List PathElem) (s : String),
      get_path (.jobj sp.data) p = some (.jstr s) → mentions_secret s = true →
      get_path (TraceSpan.as_dict sp) (.key "data" :: p) = some (.jstr "[REDACTED]")) ∧
    (∀ (t : RequestTrace) (p : List PathElem) (s : String),
      get_path (.jobj t.metadata) p = some (.jstr s) → mentions_secret s = true →
      get_path (RequestTrace.as_dict t) (.key "metadata" :: p) = some (.jstr "[REDACTED]")) := by
  refine ⟨fun v p s h hs => get_path_redacts v p s h hs, ?_, ?_, ?_⟩
  · intro e p s h hs
    simp only [TraceEvent.as_dict, get_path, lookup_last]
    simp only [lookup_last, reduceIte, String.reduceEq]
    exact get_path_redacts _ p s h hs
  · intro sp p s h hs
    cases sp with
    | mk name status started mono fin dur data ev ch =>
      simp only [TraceSpan.data] at h
      simp only [TraceSpan.as_dict, get_path, lookup_last]
      simp only [lookup_last, reduceIte, String.reduceEq]
      exact get_path_redacts _ p s h hs
  · intro t p s h hs
    simp only [RequestTrace.as_dict, get_path, lookup_last]
    simp only [lookup_last, reduceIte, String.reduceEq]
    exact get_path_redacts _ p s h hs

/-- Claim C1 witness: a nested mapping whose deep string value mentions a
marker is redacted in the serialized event document at that position. -/
theorem C1_redaction_value_based_witness :
    get_path (TraceEvent.as_dict ⟨"evt", "info", "t0",
        [("ctx", .jarr [.jobj [("note", .jstr "the Token is abc")]])]⟩)
      [.key "data", .key "ctx", .idx 0, .key "note"] = some (.jstr "[REDACTED]") :=
  C1_redaction_value_based.2.1 ⟨"evt", "info", "t0",
      [("ctx", .jarr [.jobj [("note", .jstr "the Token is abc")]])]⟩
    [.key "ctx", .idx 0, .key "note"] "the Token is abc" rfl (by decide)

/-- Claim C1 counterexample: the claimed key-based redaction totality fails.
The key api_key matches a marker case-insensitively, yet the serialized
event document still contains the original string value hunter2 at that
position, because _safe_value tests the value, never the containing key. -/
theorem C1_key_redaction_counterexample :
    mentions_secret "api_key" = true ∧
    get_path (TraceEvent.as_dict ⟨"evt", "info", "t0", [("api_key", .jstr "hunter2")]⟩)
      [.key "data", .key "api_key"] = some (.jstr "hunter2") ∧
    ("hunter2" : String) ≠ "[REDACTED]" :=
  ⟨by decide, rfl, by decide⟩

/-- Claim C7: finish is idempotent: a second finish call — whatever its
status, clock readings or extra data — leaves the span exactly as the first
finish call left it, preserving in particular the first status and duration. -/
theorem C7_finish_idempotent (s : TraceSpan) (st1 t1 : String) (m1 : Int)
    (d1 : List (String × JVal)) (st2 t2 : String) (m2 : Int)
    (d2 : List (String × JVal)) :
    (s.finish st1 t1 m1 d1).finish st2 t2 m2 d2 = s.finish st1 t1 m1 d1 := by
  cases s with
  | mk name status started mono fin dur data ev ch =>
    cases fin <;> simp [TraceSpan.finish]

/-- Claim C9: the pre-loop write-access check raises exactly when the
repository response carries a permissions mapping whose push entry —
defaulting to false when absent — is not truthy; whenever the response lacks
a permissions key, or its value is not a mapping, the check succeeds (and
respond then proceeds to the tool loop). -/
theorem C9_write_access_check (repo : RepoResponse) :
    (ensure_repo_write_access repo = .error no_push_access_msg ↔
      ∃ permissions, lookup_last repo "permissions" = some (.jobj permissions) ∧
        py_truthy (jgetD (.jobj permissions) "push" (.jbool false)) = false) ∧
    ((∀ permissions, lookup_last repo "permissions" ≠ some (.jobj permissions)) →
      ensure_repo_write_access repo = .ok ()) := by
  constructor
  · unfold ensure_repo_write_access
    cases hperm : lookup_last repo "permissions" with
    | none => simp
    | some v =>
      cases v with
      | jobj permissions =>
        by_cases hpush : py_truthy (jgetD (.jobj permissions) "push" (.jbool false)) <;>
          simp [hpush]
      | jnull => simp
      | jbool b => simp
      | jnum n => simp
      | jstr s2 => simp
      | jarr xs => simp
  · intro hnone
    unfold ensure_repo_write_access
    cases hperm : lookup_last repo "permissions" with
    | none => simp
    | some v =>
      cases v with
      | jobj permissions => exact absurd hperm (hnone permissions)
      | jnull => simp
      | jbool b => simp
      | jnum n => simp
      | jstr s2 => simp
      | jarr xs => simp

/-- Claim C9 witness: a response with no permissions key passes the check,
and a response whose permissions mapping lacks a push entry fails it. -/
theorem C9_write_access_check_witness :
    ensure_repo_write_access [("full_name", .jstr "acme/widgets")] = .ok () ∧
    ensure_repo_write_access [("permissions", .jobj [("pull", .jbool true)])] =
      .error no_push_access_msg :=
  ⟨(C9_write_access_check [("full_name", .jstr "acme/widgets")]).2
      (by intro p h; simp [lookup_last] at h),
   (C9_write_access_check [("permissions", .jobj [("pull", .jbool true)])]).1.2
      ⟨[("pull", .jbool true)], by simp [lookup_last], by decide⟩⟩

/-- Claim C4 (amended): the extractor starts its candidate at the first
opening brace character of the fence-stripped text regardless of quoted
string context (candidate.find is a plain character search), and the
no-object-found failure occurs exactly when the fence-stripped text contains
no opening brace character at all. -/
theorem C4_no_object_iff_no_brace (text : String) :
    extract_first_json_object text = .error no_object_msg ↔
      ¬ obrace ∈ (strip_code_fences text).data := by
  constructor
  · intro hres hmem
    cases hdrop : (strip_code_fences text).data.dropWhile (fun c => c ≠ obrace) with
    | nil =>
      have hall := List.dropWhile_eq_nil_iff.mp hdrop
      have := hall obrace hmem
      simp at this
    | cons c cs =>
      unfold extract_first_json_object at hres
      rw [hdrop] at hres
      have hres2 : extract_from_brace (c :: cs) = Except.error no_object_msg := hres
      clear hres
      unfold extract_from_brace at hres2
      split at hres2
      · simp only [Except.error.injEq] at hres2
        exact absurd hres2 (by decide)
      · split at hres2
        · simp only [Except.error.injEq] at hres2
          exact absurd hres2 (by decide)
        · split at hres2
          · simp at hres2
          · simp only [Except.error.injEq] at hres2
            exact absurd hres2 (by decide)
  · intro hmem
    have hdrop : (strip_code_fences text).data.dropWhile (fun c => c ≠ obrace) = [] :=
      List.dropWhile_eq_nil_iff.mpr (fun x hx => by
        simp only [ne_eq, decide_not]
        have : x ≠ obrace := fun h => hmem (h ▸ hx)
        simp [this])
    unfold extract_first_json_object
    rw [hdrop]

/-- Claim C4 counterexample: on a text whose only opening brace lies inside a
quoted string, the claim demands the no-object-found failure, but the code
starts scanning at that brace and fails with the unterminated-object error
instead. -/
theorem C4_quoted_brace_counterexample :
    extract_first_json_object "\"\x7b\"" = .error unterminated_msg ∧
    unterminated_msg ≠ no_object_msg :=
  ⟨rfl, by decide⟩

/-- Claim C10: when the lower-cased prompt matches some code hint and no plan
hint, detect_mode routes to plan mode (never chat), and respond in plan mode
is exactly one generation call on the plan prompt — no repository detection,
no access check, no tool loop (the right-hand side touches neither the
GitHub oracle nor any further generation call). -/
theorem C10_code_hint_routes_to_plan (prompt : String)
    (gen : Nat → String → Except String String) (gh : GithubOracle)
    (schema_text : String) (now : Int)
    (hplan : ∀ hint ∈ PLAN_HINTS, py_in hint (py_lower (py_strip prompt)) = false)
    (hcode : ∃ hint ∈ CODE_HINTS, py_in hint (py_lower (py_strip prompt)) = true) :
    (detect_mode prompt).mode = "plan" ∧
    respond gen gh schema_text now (detect_mode prompt).mode prompt =
      (gen 0 (build_plan_prompt schema_text prompt)).map
        (fun text => ⟨gemini_provider_name, text⟩) := by
  have hmode : (detect_mode prompt).mode = "plan" := by
    have h1 : PLAN_HINTS.find? (fun hint => py_in hint (py_lower (py_strip prompt))) = none :=
      List.find?_eq_none.mpr (fun x hx => by simp [hplan x hx])
    obtain ⟨h, hh, hmatch⟩ := hcode
    cases hfind : CODE_HINTS.find? (fun hint => py_in hint (py_lower (py_strip prompt))) with
    | none =>
      have := List.find?_eq_none.mp hfind h hh
      simp [hmatch] at this
    | some hint =>
      unfold detect_mode
      simp only [h1, hfind]
  refine ⟨hmode, ?_⟩
  rw [hmode]
  unfold respond
  simp only [reduceIte]
  cases hg : gen 0 (build_plan_prompt schema_text prompt) with
  | ok t => simp [hg, Except.map, Bind.bind, Except.bind]
  | error e => simp [hg, Except.map, Bind.bind, Except.bind]

/-- Claim C10 witness: a concrete repository-mutation request (matching the
code hint bug and no plan hint) is routed to plan mode and answered by the
single-shot plan branch. -/
theorem C10_code_hint_routes_to_plan_witness :
    (detect_mode "fix a bug for https://github.com/acme/widgets").mode = "plan" ∧
    respond (fun _ _ => .ok "plan text") gh_stub "schema" 0
        (detect_mode "fix a bug for https://github.com/acme/widgets").mode
        "fix a bug for https://github.com/acme/widgets" =
      ((fun (_ : Nat) (_ : String) => (.ok "plan text" : Except String String)) 0
          (build_plan_prompt "schema" "fix a bug for https://github.com/acme/widgets")).map
        (fun text => ⟨gemini_provider_name, text⟩) :=
  C10_code_hint_routes_to_plan "fix a bug for https://github.com/acme/widgets"
    (fun _ _ => .ok "plan text") gh_stub "schema" 0
    (by decide) ⟨"bug", by decide, by decide⟩

/-- Claim C6: dispatching a tool name outside the fixed six-tool set fails
with the unknown-tool error, and that error propagates out of the loop
iteration as the workflow result — independent of the remaining fuel and of
anything the generation oracle would do at later steps, so no further
iteration is attempted. -/
theorem C6_unknown_tool_fatal (gh : GithubOracle) (tool arguments : JVal)
    (hunknown : ∀ s ∈ known_tool_names, jval_eq_str tool s = false) :
    execute_tool_inner gh tool arguments = .error (unknown_tool_msg tool) ∧
    (∀ (gen : Nat → String → Except String String) (user_prompt : String)
       (access : RepoAccess) (now : Int) (fuel step_index : Nat)
       (history : List HistoryEntry) (model_text : String),
      gen step_index (build_tool_prompt user_prompt access history now) = .ok model_text →
      parse_action model_text = .ok (.tool_call tool arguments) →
      loop_steps gen gh user_prompt access now (fuel + 1) step_index history =
        .error (unknown_tool_msg tool)) := by
  have hexec : execute_tool_inner gh tool arguments = .error (unknown_tool_msg tool) := by
    have h1 := hunknown "get_default_branch" (by simp [known_tool_names])
    have h2 := hunknown "create_branch" (by simp [known_tool_names])
    have h3 := hunknown "list_files" (by simp [known_tool_names])
    have h4 := hunknown "read_file" (by simp [known_tool_names])
    have h5 := hunknown "write_file" (by simp [known_tool_names])
    have h6 := hunknown "create_pull_request" (by simp [known_tool_names])
    unfold execute_tool_inner
    simp [h1, h2, h3, h4, h5, h6]
  refine ⟨hexec, ?_⟩
  intro gen user_prompt access now fuel step_index history model_text hgen hparse
  simp only [loop_steps]
  rw [hgen]
  simp only [Bind.bind, Except.bind]
  rw [hparse]
  simp [hexec, Bind.bind, Except.bind]

/-- Helper: when every step in the fuel window generates a decodable
tool_call whose dispatch succeeds, the loop consumes all its fuel and exits
in the step-limit state, appending exactly one history entry per iteration. -/
theorem loop_steps_all_tool_calls (gen : Nat → String → Except String String)
    (gh : GithubOracle) (user_prompt : String) (access : RepoAccess) (now : Int)
    (fuel : Nat) :
    ∀ (step0 : Nat) (history : List HistoryEntry),
    (∀ i h2, step0 ≤ i → i < step0 + fuel →
      ∃ text tool args result,
        gen i (build_tool_prompt user_prompt access h2 now) = .ok text ∧
        parse_action text = .ok (.tool_call tool args) ∧
        execute_tool_inner gh tool args = .ok result) →
    ∃ appended, loop_steps gen gh user_prompt access now fuel step0 history =
      .ok (.limit (history ++ appended)) ∧ appended.length = fuel := by
  induction fuel with
  | zero =>
    intro step0 history _
    exact ⟨[], by simp [loop_steps], rfl⟩
  | succ n ih =>
    intro step0 history h
    obtain ⟨text, tool, args, result, hg, hp, he⟩ :=
      h step0 history (le_refl _) (by omega)
    obtain ⟨app2, happ, hlen⟩ := ih (step0 + 1) (history ++ [⟨text, result⟩])
      (fun i h2 hi1 hi2 => h i h2 (by omega) (by omega))
    refine ⟨⟨text, result⟩ :: app2, ?_, by simp [hlen]⟩
    simp only [loop_steps]
    rw [hg]
    simp only [Bind.bind, Except.bind]
    rw [hp]
    simp only [Except.bind]
    rw [he]
    simp only [Except.bind]
    rw [happ]
    simp

/-- Claim C2: when no step of the workflow decodes to a final action (every
generation decodes to a successfully dispatched tool call), the loop runs
exactly 12 iterations — one appended history entry each, and the hypothesis
constrains only steps below 12, so no 13th call is consulted — and then
returns the fixed step-limit message as a normal value, not an exception. -/
theorem C2_step_limit_after_12 (gen : Nat → String → Except String String)
    (gh : GithubOracle) (user_prompt : String) (access : RepoAccess) (now : Int)
    (h : ∀ i history, i < max_steps →
      ∃ text tool args result,
        gen i (build_tool_prompt user_prompt access history now) = .ok text ∧
        parse_action text = .ok (.tool_call tool args) ∧
        execute_tool_inner gh tool args = .ok result) :
    ∃ history, run_tool_workflow gen gh user_prompt access now = .ok (.limit history) ∧
      history.length = 12 ∧
      (run_tool_workflow gen gh user_prompt access now).map loop_result_text =
        .ok step_limit_message := by
  obtain ⟨app, happ, hlen⟩ :=
    loop_steps_all_tool_calls gen gh user_prompt access now max_steps 0 []
      (fun i h2 _ hi => h i h2 (by simpa using hi))
  refine ⟨app, by simpa [run_tool_workflow] using happ, by simpa [max_steps] using hlen, ?_⟩
  have : run_tool_workflow gen gh user_prompt access now = .ok (.limit app) := by
    simpa [run_tool_workflow] using happ
  rw [this]
  simp [Except.map, loop_result_text]

/-- Claim C2 witness: a generation oracle that always emits the same
tool_call runs the workflow to the step-limit message with 12 history
entries. -/
theorem C2_step_limit_after_12_witness :
    ∃ history,
      run_tool_workflow
        (fun _ _ => .ok "\x7b\"type\":\"tool_call\",\"tool\":\"list_files\",\"arguments\":\x7b\x7d\x7d")
        gh_stub "fix the bug" ⟨"acme", "widgets", "main"⟩ 0 = .ok (.limit history) ∧
      history.length = 12 ∧
      (run_tool_workflow
        (fun _ _ => .ok "\x7b\"type\":\"tool_call\",\"tool\":\"list_files\",\"arguments\":\x7b\x7d\x7d")
        gh_stub "fix the bug" ⟨"acme", "widgets", "main"⟩ 0).map loop_result_text =
        .ok step_limit_message :=
  C2_step_limit_after_12
    (fun _ _ => .ok "\x7b\"type\":\"tool_call\",\"tool\":\"list_files\",\"arguments\":\x7b\x7d\x7d")
    gh_stub "fix the bug" ⟨"acme", "widgets", "main"⟩ 0
    (fun _ _ _ =>
      ⟨"\x7b\"type\":\"tool_call\",\"tool\":\"list_files\",\"arguments\":\x7b\x7d\x7d",
       .jstr "list_files", .jobj [],
       .jobj [("files", .jarr []), ("total_files", .jnum 0)], rfl, rfl, rfl⟩)

/-- Helper: tool-call steps below N followed by a final decode at step N
drive the loop to the final exit, with the history listing exactly the tool
results of steps j..N-1 in call order. -/
theorem loop_steps_final_after (gen : Nat → String → Except String String)
    (gh : GithubOracle) (user_prompt : String) (access : RepoAccess) (now : Int)
    (N : Nat) (text_of : Nat → String) (tool_of args_of result_of : Nat → JVal)
    (ftext msg : String)
    (htool : ∀ i h2, i < N →
      gen i (build_tool_prompt user_prompt access h2 now) = .ok (text_of i) ∧
      parse_action (text_of i) = .ok (.tool_call (tool_of i) (args_of i)) ∧
      execute_tool_inner gh (tool_of i) (args_of i) = .ok (result_of i))
    (hfinal : ∀ h2, gen N (build_tool_prompt user_prompt access h2 now) = .ok ftext ∧
      parse_action ftext = .ok (.final (.jstr msg))) (fuel : Nat) :
    ∀ (j : Nat) (history : List HistoryEntry), j ≤ N → N < j + fuel →
    loop_steps gen gh user_prompt access now fuel j history =
      .ok (.final msg (history ++ (List.range' j (N - j)).map
        (fun i => ⟨text_of i, result_of i⟩))) := by
  induction fuel with
  | zero => intro j history hj hlt; omega
  | succ n ih =>
    intro j history hj hlt
    by_cases hjN : j = N
    · subst hjN
      obtain ⟨hg, hp⟩ := hfinal history
      simp only [loop_steps]
      rw [hg]
      simp only [Bind.bind, Except.bind]
      rw [hp]
      simp [Except.bind, Nat.sub_self, List.range']
    · have hjlt : j < N := by omega
      obtain ⟨hg, hp, he⟩ := htool j history hjlt
      have hrec := ih (j + 1) (history ++ [⟨text_of j, result_of j⟩]) (by omega) (by omega)
      simp only [loop_steps]
      rw [hg]
      simp only [Bind.bind, Except.bind]
      rw [hp]
      simp only [Except.bind]
      rw [he]
      simp only [Except.bind]
      rw [hrec]
      have hsub : N - j = (N - (j + 1)) + 1 := by omega
      rw [hsub, List.range'_succ]
      simp

/-- Claim C5: when the first N steps decode to successfully dispatched tool
calls and step N decodes to a final action (N below the step limit), the
workflow returns that final message and the history handed to prompt
building has exactly N entries — one per executed tool call, in call order —
with the final action appending nothing. -/
theorem C5_history_one_entry_per_tool_call (gen : Nat → String → Except String String)
    (gh : GithubOracle) (user_prompt : String) (access : RepoAccess) (now : Int)
    (N : Nat) (text_of : Nat → String) (tool_of args_of result_of : Nat → JVal)
    (ftext msg : String) (hN : N < max_steps)
    (htool : ∀ i h2, i < N →
      gen i (build_tool_prompt user_prompt access h2 now) = .ok (text_of i) ∧
      parse_action (text_of i) = .ok (.tool_call (tool_of i) (args_of i)) ∧
      execute_tool_inner gh (tool_of i) (args_of i) = .ok (result_of i))
    (hfinal : ∀ h2, gen N (build_tool_prompt user_prompt access h2 now) = .ok ftext ∧
      parse_action ftext = .ok (.final (.jstr msg))) :
    run_tool_workflow gen gh user_prompt access now =
      .ok (.final msg ((List.range N).map (fun i => ⟨text_of i, result_of i⟩))) ∧
    ((List.range N).map (fun i => (⟨text_of i, result_of i⟩ : HistoryEntry))).length = N := by
  have := loop_steps_final_after gen gh user_prompt access now N text_of tool_of
    args_of result_of ftext msg htool hfinal max_steps 0 [] (by omega)
    (by simp [max_steps] at hN ⊢; omega)
  constructor
  · simpa [run_tool_workflow, List.range_eq_range'] using this
  · simp

/-- Claim C5 witness: two tool-call steps followed by a final step produce
the final message with exactly the two tool entries, in order. -/
theorem C5_history_one_entry_per_tool_call_witness :
    run_tool_workflow
      (fun i _ => if i < 2
        then .ok "\x7b\"type\":\"tool_call\",\"tool\":\"get_default_branch\",\"arguments\":\x7b\x7d\x7d"
        else .ok "\x7b\"type\":\"final\",\"message\":\"Created PR #4\"\x7d")
      gh_stub "fix the bug" ⟨"acme", "widgets", "main"⟩ 0 =
      .ok (.final "Created PR #4" ((List.range 2).map
        (fun _ => ⟨"\x7b\"type\":\"tool_call\",\"tool\":\"get_default_branch\",\"arguments\":\x7b\x7d\x7d",
                   .jobj [("default_branch", .jstr "main")]⟩))) :=
  (C5_history_one_entry_per_tool_call
    (fun i _ => if i < 2
      then .ok "\x7b\"type\":\"tool_call\",\"tool\":\"get_default_branch\",\"arguments\":\x7b\x7d\x7d"
      else .ok "\x7b\"type\":\"final\",\"message\":\"Created PR #4\"\x7d")
    gh_stub "fix the bug" ⟨"acme", "widgets", "main"⟩ 0 2
    (fun _ => "\x7b\"type\":\"tool_call\",\"tool\":\"get_default_branch\",\"arguments\":\x7b\x7d\x7d")
    (fun _ => .jstr "get_default_branch") (fun _ => .jobj [])
    (fun _ => .jobj [("default_branch", .jstr "main")])
    "\x7b\"type\":\"final\",\"message\":\"Created PR #4\"\x7d" "Created PR #4"
    (by decide)
    (fun _ _ hi => ⟨by simp [hi], rfl, rfl⟩)
    (fun _ => ⟨by simp, rfl⟩)).1

/-- Claim C8: retry applies only to transport-level failures, with the bound
max_retries = 2: when all three attempts fail at transport level the last
transport failure message is surfaced as the fatal error; and an HTTPError
(a response carrying a status code) at any attempt is surfaced immediately
as fatal — the attempt loop raises on the spot, consulting no later attempt. -/
theorem C8_retry_transport_only (http : Nat → HttpOutcome) :
    ((∀ j, j < max_retries + 1 → transport_failure (http j)) →
      generate_text http = .error (transport_message (http max_retries) max_retries)) ∧
    (∀ k code detail, k ≤ max_retries →
      (∀ j, j < k → transport_failure (http j)) →
      http k = .http_error code detail →
      generate_text http = .error (api_error_message code detail)) := by
  constructor
  · intro h
    have h0 := h 0 (by simp [max_retries])
    have h1 := h 1 (by simp [max_retries])
    have h2 := h 2 (by simp [max_retries])
    cases hx0 : http 0 with
    | success r => rw [hx0] at h0; exact h0.elim
    | http_error c d => rw [hx0] at h0; exact h0.elim
    | timeout =>
      cases hx1 : http 1 with
      | success r => rw [hx1] at h1; exact h1.elim
      | http_error c d => rw [hx1] at h1; exact h1.elim
      | timeout =>
        cases hx2 : http 2 with
        | success r => rw [hx2] at h2; exact h2.elim
        | http_error c d => rw [hx2] at h2; exact h2.elim
        | timeout =>
          simp [generate_text, attempt_loop, max_retries, hx0, hx1, hx2,
                transport_message, Bind.bind, Except.bind]
        | net_error reason =>
          simp [generate_text, attempt_loop, max_retries, hx0, hx1, hx2,
                transport_message, Bind.bind, Except.bind]
      | net_error reason1 =>
        cases hx2 : http 2 with
        | success r => rw [hx2] at h2; exact h2.elim
        | http_error c d => rw [hx2] at h2; exact h2.elim
        | timeout =>
          simp [generate_text, attempt_loop, max_retries, hx0, hx1, hx2,
                transport_message, Bind.bind, Except.bind]
        | net_error reason =>
          simp [generate_text, attempt_loop, max_retries, hx0, hx1, hx2,
                transport_message, Bind.bind, Except.bind]
    | net_error reason0 =>
      cases hx1 : http 1 with
      | success r => rw [hx1] at h1; exact h1.elim
      | http_error c d => rw [hx1] at h1; exact h1.elim
      | timeout =>
        cases hx2 : http 2 with
        | success r => rw [hx2] at h2; exact h2.elim
        | http_error c d => rw [hx2] at h2; exact h2.elim
        | timeout =>
          simp [generate_text, attempt_loop, max_retries, hx0, hx1, hx2,
                transport_message, Bind.bind, Except.bind]
        | net_error reason =>
          simp [generate_text, attempt_loop, max_retries, hx0, hx1, hx2,
                transport_message, Bind.bind, Except.bind]
      | net_error reason1 =>
        cases hx2 : http 2 with
        | success r => rw [hx2] at h2; exact h2.elim
        | http_error c d => rw [hx2] at h2; exact h2.elim
        | timeout =>
          simp [generate_text, attempt_loop, max_retries, hx0, hx1, hx2,
                transport_message, Bind.bind, Except.bind]
        | net_error reason =>
          simp [generate_text, attempt_loop, max_retries, hx0, hx1, hx2,
                transport_message, Bind.bind, Except.bind]
  · intro k code detail hk hprev herr
    have hk2 : k ≤ 2 := by simpa [max_retries] using hk
    clear hk
    interval_cases k
    · simp [generate_text, attempt_loop, max_retries, herr, Bind.bind, Except.bind]
    · have h0 := hprev 0 (by omega)
      cases hx0 : http 0 with
      | success r => rw [hx0] at h0; exact h0.elim
      | http_error c d => rw [hx0] at h0; exact h0.elim
      | timeout =>
        simp [generate_text, attempt_loop, max_retries, hx0, herr, Bind.bind, Except.bind]
      | net_error reason =>
        simp [generate_text, attempt_loop, max_retries, hx0, herr, Bind.bind, Except.bind]
    · have h0 := hprev 0 (by omega)
      have h1 := hprev 1 (by omega)
      cases hx0 : http 0 with
      | success r => rw [hx0] at h0; exact h0.elim
      | http_error c d => rw [hx0] at h0; exact h0.elim
      | timeout =>
        cases hx1 : http 1 with
        | success r => rw [hx1] at h1; exact h1.elim
        | http_error c d => rw [hx1] at h1; exact h1.elim
        | timeout =>
          simp [generate_text, attempt_loop, max_retries, hx0, hx1, herr, Bind.bind, Except.bind]
        | net_error reason =>
          simp [generate_text, attempt_loop, max_retries, hx0, hx1, herr, Bind.bind, Except.bind]
      | net_error reason0 =>
        cases hx1 : http 1 with
        | success r => rw [hx1] at h1; exact h1.elim
        | http_error c d => rw [hx1] at h1; exact h1.elim
        | timeout =>
          simp [generate_text, attempt_loop, max_retries, hx0, hx1, herr, Bind.bind, Except.bind]
        | net_error reason =>
          simp [generate_text, attempt_loop, max_retries, hx0, hx1, herr, Bind.bind, Except.bind]

/-- Claim C8 witness: three straight timeouts surface the third timeout
message; an HTTPError on the first attempt is fatal immediately. -/
theorem C8_retry_transport_only_witness :
    generate_text (fun _ => .timeout) = .error (timeout_message 2) ∧
    generate_text (fun _ => .http_error 500 "boom") = .error (api_error_message 500 "boom") :=
  ⟨(C8_retry_transport_only (fun _ => .timeout)).1 (fun _ _ => trivial),
   (C8_retry_transport_only (fun _ => .http_error 500 "boom")).2 0 500 "boom"
     (by omega) (fun _ h => absurd h (by omega)) rfl⟩

/-- Claim C6 witness: the unknown tool delete_repo fails dispatch with the
unknown-tool error, and a loop step decoding to it aborts the whole 12-step
workflow with that error. -/
theorem C6_unknown_tool_fatal_witness :
    execute_tool_inner gh_stub (.jstr "delete_repo") (.jobj []) =
      .error (unknown_tool_msg (.jstr "delete_repo")) ∧
    loop_steps
      (fun _ _ => .ok "\x7b\"type\":\"tool_call\",\"tool\":\"delete_repo\",\"arguments\":\x7b\x7d\x7d")
      gh_stub "fix the bug" ⟨"acme", "widgets", "main"⟩ 0 12 0 [] =
      .error (unknown_tool_msg (.jstr "delete_repo")) :=
  ⟨(C6_unknown_tool_fatal gh_stub (.jstr "delete_repo") (.jobj []) (by decide)).1,
   (C6_unknown_tool_fatal gh_stub (.jstr "delete_repo") (.jobj []) (by decide)).2
     (fun _ _ => .ok "\x7b\"type\":\"tool_call\",\"tool\":\"delete_repo\",\"arguments\":\x7b\x7d\x7d")
     "fix the bug" ⟨"acme", "widgets", "main"⟩ 0 11 0 []
     "\x7b\"type\":\"tool_call\",\"tool\":\"delete_repo\",\"arguments\":\x7b\x7d\x7d" rfl rfl⟩

/-- Claim C3 counterexample: the trailing remainder is not verbatim — the
source strips it.  Everything after the matching closing brace here is the
string " tail " but extract returns "tail". -/
theorem C3_trailing_stripped_counterexample :
    extract_first_json_object "\x7b\"a\": 1\x7d tail " =
      .ok (.jobj [("a", .jnum 1)], "tail") ∧
    ("tail" : String) ≠ " tail " :=
  ⟨rfl, by decide⟩

/-- Helper: a character that is no quote and no brace leaves the scan state
unchanged outside strings. -/
theorem scan_step_neutral (d : Int) (c : Char) (h1 : c ≠ '"') (h2 : c ≠ obrace)
    (h3 : c ≠ cbrace) :
    scan_step ⟨d, false, false⟩ c = some ⟨d, false, false⟩ := by
  simp [scan_step, h1, h2, h3]

/-- Helper: a run of neutral characters leaves the scan state unchanged. -/
theorem scan_all_neutral (l : List Char) (d : Int)
    (h : ∀ c ∈ l, c ≠ '"' ∧ c ≠ obrace ∧ c ≠ cbrace) :
    scan_all l ⟨d, false, false⟩ = some ⟨d, false, false⟩ := by
  induction l with
  | nil => simp [scan_all]
  | cons c cs ih =>
    obtain ⟨h1, h2, h3⟩ := h c (by simp)
    simp only [scan_all, scan_step_neutral d c h1 h2 h3]
    exact ih (fun x hx => h x (by simp [hx]))

/-- Helper: scanning a concatenation runs the blocks in sequence. -/
theorem scan_all_append (xs ys : List Char) (st : ScanSt) :
    scan_all (xs ++ ys) st =
      match scan_all xs st with
      | none => none
      | some st1 => scan_all ys st1 := by
  induction xs generalizing st with
  | nil => simp [scan_all]
  | cons c cs ih =>
    simp only [List.cons_append, scan_all]
    cases hs : scan_step st c with
    | none => rfl
    | some st1 => exact ih st1

/-- Helper: the matching-brace offset over a concatenation whose first block
scans without a break. -/
theorem find_end_append (xs ys : List Char) (st st1 : ScanSt)
    (h : scan_all xs st = some st1) :
    find_end (xs ++ ys) st = (find_end ys st1).map (· + xs.length) := by
  induction xs generalizing st with
  | nil =>
    simp only [scan_all] at h
    cases h
    simp
  | cons c cs ih =>
    simp only [scan_all] at h
    cases hs : scan_step st c with
    | none => rw [hs] at h; exact absurd h (by simp)
    | some st2 =>
      rw [hs] at h
      have h2 : scan_all cs st2 = some st1 := h
      simp only [List.cons_append, find_end, hs, List.append_eq]
      rw [ih st2 h2]
      cases find_end ys st1 with
      | none => simp
      | some j => simp; omega

/-- Helper: an escaped string body scans through without leaving the
in-string state (braces and quotes inside string values do not perturb the
depth). -/
theorem scan_all_jescape (l : List Char) (d : Int) :
    scan_all (jescape l) ⟨d, true, false⟩ = some ⟨d, true, false⟩ := by
  induction l with
  | nil => simp [jescape, scan_all]
  | cons c cs ih =>
    by_cases h1 : c = '"'
    · subst h1
      simp only [jescape, reduceIte, scan_all, scan_step]
      simpa using ih
    · by_cases h2 : c = '\\'
      · subst h2
        simp only [jescape, reduceIte, scan_all, scan_step]
        simpa using ih
      · simp only [jescape, h1, h2, reduceIte, scan_all, scan_step]
        simpa [h1, h2] using ih

/-- Helper: a serialized string literal scans to the same outside-string
state. -/
theorem scan_all_string (l : List Char) (d : Int) :
    scan_all ('"' :: (jescape l ++ ['"'])) ⟨d, false, false⟩ =
      some ⟨d, false, false⟩ := by
  have h1 : scan_step ⟨d, false, false⟩ '"' = some ⟨d, true, false⟩ := by
    simp [scan_step]
  have h2 : scan_step ⟨d, true, false⟩ '"' = some ⟨d, false, false⟩ := by
    simp [scan_step]
  simp only [scan_all, h1]
  rw [scan_all_append]
  simp only [scan_all_jescape]
  simp [scan_all, h2]

/-- Helper: digit_char always yields a digit character. -/
theorem digit_char_isDigit (d : Nat) : (digit_char d).isDigit = true := by
  by_cases h : d < 9
  · interval_cases d <;> rfl
  · obtain ⟨n, rfl⟩ : ∃ n, d = n + 9 := ⟨d - 9, by omega⟩
    rfl

/-- Helper: one unfolding of the decimal renderer past ten. -/
theorem nat_chars_aux_step (n : Nat) (h : ¬ n < 10) (acc : List Char) :
    nat_chars_aux n acc = nat_chars_aux (n / 10) (digit_char (n % 10) :: acc) := by
  conv_lhs => rw [nat_chars_aux]
  simp [h]

/-- Helper: the accumulator form of the decimal renderer. -/
theorem nat_chars_aux_eq (n : Nat) : ∀ acc, nat_chars_aux n acc = nat_chars n ++ acc := by
  induction n using Nat.strong_induction_on with
  | _ n ih =>
    intro acc
    by_cases h : n < 10
    · simp [nat_chars_aux, nat_chars, h]
    · have hd : n / 10 < n := Nat.div_lt_self (by omega) (by omega)
      rw [nat_chars, nat_chars_aux_step n h acc, nat_chars_aux_step n h [],
          ih (n / 10) hd (digit_char (n % 10) :: acc),
          ih (n / 10) hd [digit_char (n % 10)]]
      simp

/-- Helper: decimal renderings consist of digit characters. -/
theorem nat_chars_all_digit (n : Nat) : ∀ c ∈ nat_chars n, c.isDigit = true := by
  induction n using Nat.strong_induction_on with
  | _ n ih =>
    by_cases h : n < 10
    · intro c hc
      simp [nat_chars, nat_chars_aux, h] at hc
      subst hc
      exact digit_char_isDigit n
    · have hd : n / 10 < n := Nat.div_lt_self (by omega) (by omega)
      rw [nat_chars, nat_chars_aux_step n h [], nat_chars_aux_eq]
      intro c hc
      rcases List.mem_append.mp hc with h1 | h2
      · exact ih (n / 10) hd c h1
      · simp at h2
        subst h2
        exact digit_char_isDigit (n % 10)

/-- Helper: decimal renderings are nonempty. -/
theorem nat_chars_ne_nil (n : Nat) : nat_chars n ≠ [] := by
  by_cases h : n < 10
  · simp [nat_chars, nat_chars_aux, h]
  · rw [nat_chars, nat_chars_aux_step n h [], nat_chars_aux_eq]
    simp

/-- Helper: a digit character is none of the JSON structural characters. -/
theorem isDigit_ne (c : Char) (h : c.isDigit = true) :
    c ≠ '"' ∧ c ≠ obrace ∧ c ≠ cbrace ∧ c ≠ '[' ∧ c ≠ ']' ∧ c ≠ ',' ∧
    c ≠ ':' ∧ c ≠ 'n' ∧ c ≠ 't' ∧ c ≠ 'f' ∧ c ≠ '-' ∧ json_ws c = false := by
  refine ⟨?_, ?_, ?_, ?_, ?_, ?_, ?_, ?_, ?_, ?_, ?_, ?_⟩ <;>
    first
      | (intro heq; subst heq; exact absurd h (by decide))
      | (cases hw : json_ws c
         · rfl
         · simp only [json_ws, Bool.or_eq_true, decide_eq_true_eq] at hw
           rcases hw with ((h1 | h1) | h1) | h1 <;>
             (subst h1; exact absurd h (by decide)))

/-- Helper: the quote is not a brace character. -/
theorem obrace_ne_quote : obrace ≠ '"' := by decide

/-- Helper: the braces are distinct characters. -/
theorem cbrace_ne_obrace : cbrace ≠ obrace := by decide

/-- Helper: the closing brace is not a quote. -/
theorem cbrace_ne_quote : cbrace ≠ '"' := by decide

/-- Helper: every character of a rendered integer is a digit or the sign. -/
theorem int_chars_digit_or_sign (n : Int) :
    ∀ c ∈ int_chars n, c.isDigit = true ∨ c = '-' := by
  intro c hc
  unfold int_chars at hc
  by_cases h : n < 0
  · simp only [h, reduceIte] at hc
    rcases List.mem_cons.mp hc with h1 | h1
    · exact Or.inr h1
    · exact Or.inl (nat_chars_all_digit _ c h1)
  · simp only [h, reduceIte] at hc
    exact Or.inl (nat_chars_all_digit _ c hc)

mutual
/-- Helper: scanning the canonical serialization of a value at positive
depth consumes it entirely and returns to the same state. -/
theorem scan_dumps : ∀ (v : JVal) (d : Int), 1 ≤ d →
    scan_all (dumps_chars v) ⟨d, false, false⟩ = some ⟨d, false, false⟩
  | .jnull, d, _ => by
    exact scan_all_neutral "null".data d (by decide)
  | .jbool true, d, _ => by
    exact scan_all_neutral "true".data d (by decide)
  | .jbool false, d, _ => by
    exact scan_all_neutral "false".data d (by decide)
  | .jnum n, d, _ => by
    apply scan_all_neutral
    intro c hc
    rcases int_chars_digit_or_sign n c hc with h | h
    · obtain ⟨n1, n2, n3, _⟩ := isDigit_ne c h
      exact ⟨n1, n2, n3⟩
    · subst h
      exact ⟨by decide, by decide, by decide⟩
  | .jstr s, d, _ => by
    exact scan_all_string s.data d
  | .jarr xs, d, hd => by
    have h1 : scan_step ⟨d, false, false⟩ '[' = some ⟨d, false, false⟩ :=
      scan_step_neutral d '[' (by decide) (by decide) (by decide)
    simp only [dumps_chars, scan_all, h1, List.append_eq]
    rw [scan_all_append, scan_dumps_items xs d hd]
    exact scan_all_neutral [']'] d (by decide)
  | .jobj kvs, d, hd => by
    have h1 : scan_step ⟨d, false, false⟩ obrace = some ⟨d + 1, false, false⟩ := by
      simp [scan_step, obrace_ne_quote]
    have h2 : scan_step ⟨d + 1, false, false⟩ cbrace = some ⟨d, false, false⟩ := by
      have hne : ¬(d = 0) := by omega
      simp [scan_step, cbrace_ne_quote, cbrace_ne_obrace, hne]
    simp only [dumps_chars, scan_all, h1, List.append_eq]
    rw [scan_all_append, scan_dumps_members kvs (d + 1) (by omega)]
    simp [scan_all, h2]

/-- Helper: scanning serialized array items at positive depth is neutral. -/
theorem scan_dumps_items : ∀ (xs : List JVal) (d : Int), 1 ≤ d →
    scan_all (dumps_items xs) ⟨d, false, false⟩ = some ⟨d, false, false⟩
  | [], d, _ => by simp [dumps_items, scan_all]
  | [v], d, hd => by
    simpa [dumps_items] using scan_dumps v d hd
  | v :: w :: rest, d, hd => by
    have hcomma : scan_step ⟨d, false, false⟩ ',' = some ⟨d, false, false⟩ :=
      scan_step_neutral d ',' (by decide) (by decide) (by decide)
    simp only [dumps_items]
    rw [scan_all_append, scan_dumps v d hd]
    simp only [scan_all, hcomma]
    exact scan_dumps_items (w :: rest) d hd

/-- Helper: scanning serialized object members at positive depth is neutral. -/
theorem scan_dumps_members : ∀ (kvs : List (String × JVal)) (d : Int), 1 ≤ d →
    scan_all (dumps_members kvs) ⟨d, false, false⟩ = some ⟨d, false, false⟩
  | [], d, _ => by simp [dumps_members, scan_all]
  | [(k, v)], d, hd => by
    have heq : dumps_members [(k, v)] =
        ('"' :: (jescape k.data ++ ['"'])) ++ ':' :: dumps_chars v := by
      simp [dumps_members]
    have hcolon : scan_step ⟨d, false, false⟩ ':' = some ⟨d, false, false⟩ :=
      scan_step_neutral d ':' (by decide) (by decide) (by decide)
    rw [heq, scan_all_append, scan_all_string k.data d]
    simp only [scan_all, hcolon]
    exact scan_dumps v d hd
  | (k, v) :: m :: rest, d, hd => by
    have heq : dumps_members ((k, v) :: m :: rest) =
        ('"' :: (jescape k.data ++ ['"'])) ++
          ':' :: (dumps_chars v ++ ',' :: dumps_members (m :: rest)) := by
      simp [dumps_members]
    have hcolon : scan_step ⟨d, false, false⟩ ':' = some ⟨d, false, false⟩ :=
      scan_step_neutral d ':' (by decide) (by decide) (by decide)
    have hcomma : scan_step ⟨d, false, false⟩ ',' = some ⟨d, false, false⟩ :=
      scan_step_neutral d ',' (by decide) (by decide) (by decide)
    rw [heq, scan_all_append, scan_all_string k.data d]
    simp only [scan_all, hcolon]
    rw [scan_all_append, scan_dumps v d hd]
    simp only [scan_all, hcomma]
    exact scan_dumps_members (m :: rest) d hd
end

/-- Helper: escaping does not shorten a string body. -/
theorem jescape_length (l : List Char) : l.length ≤ (jescape l).length := by
  induction l with
  | nil => simp [jescape]
  | cons c cs ih =>
    simp only [jescape]
    split
    · simp; omega
    · split
      · simp; omega
      · simp; omega

/-- Helper: the string-body decoder inverts the escape function. -/
theorem jstr_body_jescape (l : List Char) : ∀ (rest : List Char) (fuel : Nat),
    l.length + 1 ≤ fuel →
    jstr_body fuel (jescape l ++ '"' :: rest) = some (l, rest) := by
  induction l with
  | nil =>
    intro rest fuel hf
    cases fuel with
    | zero => omega
    | succ f => simp [jescape, jstr_body]
  | cons c cs ih =>
    intro rest fuel hf
    cases fuel with
    | zero => omega
    | succ f =>
      by_cases h1 : c = '"'
      · subst h1
        simp [jescape, jstr_body, ih rest f (by simpa using hf)]
      · by_cases h2 : c = '\\'
        · subst h2
          simp [jescape, jstr_body, ih rest f (by simpa using hf)]
        · simp [jescape, jstr_body, h1, h2, ih rest f (by simpa using hf)]

/-- Helper: the digit-run decoder consumes exactly a digit block. -/
theorem jdigits_spec : ∀ (dl rest : List Char) (acc fuel : Nat),
    dl.length ≤ fuel → (∀ c ∈ dl, c.isDigit = true) →
    (rest = [] ∨ ∃ c cs, rest = c :: cs ∧ c.isDigit = false) →
    jdigits fuel acc (dl ++ rest) =
      (dl.foldl (fun a c => a * 10 + (c.toNat - 48)) acc, rest) := by
  intro dl
  induction dl with
  | nil =>
    intro rest acc fuel _ _ hrest
    cases fuel with
    | zero => simp [jdigits]
    | succ f =>
      rcases hrest with h | ⟨c, cs, hcs, hnd⟩
      · subst h; simp [jdigits]
      · subst hcs; simp [jdigits, hnd]
  | cons c dl ih =>
    intro rest acc fuel hlen hdig hrest
    cases fuel with
    | zero => simp at hlen
    | succ f =>
      have hc := hdig c (by simp)
      simp only [List.cons_append, jdigits, hc, reduceIte, List.foldl_cons]
      exact ih rest (acc * 10 + (c.toNat - 48)) f (by simpa using hlen)
        (fun x hx => hdig x (by simp [hx])) hrest

/-- Helper: the digit fold with an initial accumulator. -/
theorem foldl_digits_init (dl : List Char) : ∀ a : Nat,
    dl.foldl (fun x c => x * 10 + (c.toNat - 48)) a = a * 10 ^ dl.length + dval dl := by
  induction dl with
  | nil => intro a; simp [dval]
  | cons c dl ih =>
    intro a
    have hdv : dval (c :: dl) = (c.toNat - 48) * 10 ^ dl.length + dval dl := by
      simp only [dval, List.foldl_cons, Nat.zero_mul, Nat.zero_add]
      rw [ih (c.toNat - 48)]
      simp [dval]
    simp only [List.foldl_cons]
    rw [ih (a * 10 + (c.toNat - 48)), hdv]
    simp only [List.length_cons, pow_succ]
    ring

/-- Helper: appending a digit multiplies the value by ten. -/
theorem dval_append_digit (xs : List Char) (c : Char) :
    dval (xs ++ [c]) = dval xs * 10 + (c.toNat - 48) := by
  simp [dval, List.foldl_append]

/-- Helper: the numeric value of a digit character below ten. -/
theorem digit_char_val (d : Nat) (h : d < 10) : (digit_char d).toNat - 48 = d := by
  interval_cases d <;> rfl

/-- Helper: the decimal rendering evaluates back to its number. -/
theorem dval_nat_chars (n : Nat) : dval (nat_chars n) = n := by
  induction n using Nat.strong_induction_on with
  | _ n ih =>
    by_cases h : n < 10
    · have hv := digit_char_val n h
      simp [nat_chars, nat_chars_aux, h, dval]
      omega
    · have hd : n / 10 < n := Nat.div_lt_self (by omega) (by omega)
      rw [nat_chars, nat_chars_aux_step n h [], nat_chars_aux_eq, dval_append_digit,
          ih (n / 10) hd, digit_char_val (n % 10) (by omega)]
      omega

/-- Helper: the digit-run decoder inverts the decimal rendering. -/
theorem jdigits_nat_chars (n : Nat) (rest : List Char) (fuel : Nat)
    (hf : (nat_chars n).length ≤ fuel)
    (hrest : rest = [] ∨ ∃ c cs, rest = c :: cs ∧ c.isDigit = false) :
    jdigits fuel 0 (nat_chars n ++ rest) = (n, rest) := by
  rw [jdigits_spec (nat_chars n) rest 0 fuel hf (nat_chars_all_digit n) hrest,
      foldl_digits_init]
  simp [dval_nat_chars]

/-- Helper: the decimal rendering starts with a digit. -/
theorem nat_chars_head (n : Nat) :
    ∃ d dl, nat_chars n = d :: dl ∧ d.isDigit = true := by
  cases hnc : nat_chars n with
  | nil => exact absurd hnc (nat_chars_ne_nil n)
  | cons d dl => exact ⟨d, dl, rfl, nat_chars_all_digit n d (by simp [hnc])⟩

/-- Helper: the canonical serialization of any value starts with a character
that is no whitespace and no closing delimiter. -/
theorem dumps_head (v : JVal) :
    ∃ c t, dumps_chars v = c :: t ∧ json_ws c = false ∧ c ≠ ']' ∧ c ≠ cbrace ∧ c ≠ ',' := by
  cases v with
  | jnull => exact ⟨'n', _, rfl, by decide, by decide, by decide, by decide⟩
  | jbool b =>
    cases b with
    | true => exact ⟨'t', _, rfl, by decide, by decide, by decide, by decide⟩
    | false => exact ⟨'f', _, rfl, by decide, by decide, by decide, by decide⟩
  | jstr s => exact ⟨'"', _, rfl, by decide, by decide, by decide, by decide⟩
  | jarr xs => exact ⟨'[', _, rfl, by decide, by decide, by decide, by decide⟩
  | jobj kvs => exact ⟨obrace, _, rfl, by decide, by decide, by decide, by decide⟩
  | jnum n =>
    by_cases hn : n < 0
    · exact ⟨'-', nat_chars n.natAbs, by simp [dumps_chars, int_chars, hn],
        by decide, by decide, by decide, by decide⟩
    · obtain ⟨d, dl, hdl, hdig⟩ := nat_chars_head n.toNat
      obtain ⟨_, _, hcb, _, hrb, hcm, _, _, _, _, _, hws⟩ := isDigit_ne d hdig
      exact ⟨d, dl, by simp [dumps_chars, int_chars, hn, hdl], hws, hrb, hcb, hcm⟩

mutual
/-- Helper: the decoder model of json.loads inverts the canonical
serialization of any value, leaving the remainder untouched. -/
theorem jdecode_dumps : ∀ (v : JVal) (rest : List Char) (fuel : Nat),
    jfuel v ≤ fuel →
    (rest = [] ∨ ∃ c cs, rest = c :: cs ∧ c.isDigit = false) →
    jdecode fuel (dumps_chars v ++ rest) = some (v, rest)
  | .jnull, rest, fuel, hf, _ => by
    cases fuel with
    | zero => simp [jfuel] at hf
    | succ f => rfl
  | .jbool true, rest, fuel, hf, _ => by
    cases fuel with
    | zero => simp [jfuel] at hf
    | succ f => rfl
  | .jbool false, rest, fuel, hf, _ => by
    cases fuel with
    | zero => simp [jfuel] at hf
    | succ f => rfl
  | .jnum n, rest, fuel, hf, hrest => by
    cases fuel with
    | zero => simp [jfuel] at hf
    | succ f =>
      by_cases hn : n < 0
      · obtain ⟨d, dl, hdl, hdig⟩ := nat_chars_head n.natAbs
        have harr : dumps_chars (.jnum n) ++ rest = '-' :: (d :: (dl ++ rest)) := by
          simp [dumps_chars, int_chars, hn, hdl]
        have hlist : nat_chars n.natAbs ++ rest = d :: (dl ++ rest) := by rw [hdl]; simp
        have hdg := jdigits_nat_chars n.natAbs rest ((d :: (dl ++ rest)).length + 1)
            (by rw [hdl]; simp only [List.length_cons, List.length_append]; omega) hrest
        rw [hlist] at hdg
        rw [harr]
        unfold jdecode
        simp only [List.dropWhile_cons, show json_ws '-' = false from rfl,
          Bool.false_eq_true, reduceIte, hdig,
          show ('-' = obrace) = False from by decide]
        rw [hdg]
        have habs : |n| = -n := abs_of_neg hn
        simp [habs]
      · obtain ⟨d, dl, hdl, hdig⟩ := nat_chars_head n.toNat
        have harr : dumps_chars (.jnum n) ++ rest = d :: (dl ++ rest) := by
          simp [dumps_chars, int_chars, hn, hdl]
        obtain ⟨hq, hob, hcb, hlb, hrb, hc, hcol, hnn, ht, hf2, hm, hws⟩ := isDigit_ne d hdig
        have hlist : nat_chars n.toNat ++ rest = d :: (dl ++ rest) := by rw [hdl]; simp
        have hdg := jdigits_nat_chars n.toNat rest ((d :: (dl ++ rest)).length + 1)
            (by rw [hdl]; simp only [List.length_cons, List.length_append]; omega) hrest
        rw [hlist] at hdg
        rw [harr]
        unfold jdecode
        simp only [List.dropWhile_cons, hws, Bool.false_eq_true, reduceIte]
        simp only [hq, hob, hlb, hnn, ht, hf2, hm, reduceIte, hdig, ite_false, ite_true]
        rw [hdg]
        have hcast : ((n.toNat : Int)) = n := by omega
        simp [hcast]
  | .jstr s, rest, fuel, hf, _ => by
    cases fuel with
    | zero => simp [jfuel] at hf
    | succ f =>
      have harr : dumps_chars (.jstr s) ++ rest = '"' :: (jescape s.data ++ '"' :: rest) := by
        simp [dumps_chars]
      rw [harr]
      have hkey := jstr_body_jescape s.data rest
          ((jescape s.data ++ '"' :: rest).length + 1)
          (by have := jescape_length s.data
              simp only [List.length_append, List.length_cons]; omega)
      unfold jdecode
      simp only [List.dropWhile_cons]
      rw [show json_ws '"' = false from rfl]
      simp only [Bool.false_eq_true, reduceIte]
      rw [hkey]
  | .jarr [], rest, fuel, hf, _ => by
    cases fuel with
    | zero => simp [jfuel, jfuel_items] at hf
    | succ f => rfl
  | .jarr (x :: xs), rest, fuel, hf, _ => by
    cases fuel with
    | zero => simp [jfuel] at hf
    | succ f =>
      have hb : jfuel_items (x :: xs) ≤ f := by simp [jfuel] at hf; omega
      have hrec := jdecode_items_dumps (x :: xs) rest f hb (by simp)
      obtain ⟨c, t, hct, hws, hrb, hcb, hcm⟩ := dumps_head x
      obtain ⟨R, hR⟩ : ∃ R, dumps_items (x :: xs) ++ ']' :: rest = c :: R := by
        cases xs with
        | nil => exact ⟨t ++ ']' :: rest, by simp [dumps_items, hct]⟩
        | cons w ws2 => exact ⟨t ++ ',' :: dumps_items (w :: ws2) ++ ']' :: rest,
            by simp [dumps_items, hct]⟩
      have harr : dumps_chars (.jarr (x :: xs)) ++ rest = '[' :: (c :: R) := by
        simp only [dumps_chars, List.cons_append, List.append_assoc, List.cons.injEq, true_and]
        rw [← hR]
        simp
      rw [harr]
      unfold jdecode
      simp only [List.dropWhile_cons, show json_ws '[' = false from rfl, hws,
        Bool.false_eq_true, reduceIte, hrb,
        show ('[' = '"') = False from by decide,
        show ('[' = obrace) = False from by decide]
      rw [← hR, hrec]
  | .jobj [], rest, fuel, hf, _ => by
    cases fuel with
    | zero => simp [jfuel, jfuel_members] at hf
    | succ f => rfl
  | .jobj ((k, v) :: kvs), rest, fuel, hf, _ => by
    cases fuel with
    | zero => simp [jfuel] at hf
    | succ f =>
      have hb : jfuel_members ((k, v) :: kvs) ≤ f := by simp [jfuel] at hf; omega
      have hrec := jdecode_members_dumps ((k, v) :: kvs) rest f hb (by simp)
      obtain ⟨R, hR⟩ : ∃ R, dumps_members ((k, v) :: kvs) ++ cbrace :: rest = '"' :: R := by
        cases kvs with
        | nil =>
          exact ⟨jescape k.data ++ '"' :: (':' :: (dumps_chars v ++ cbrace :: rest)),
            by simp [dumps_members]⟩
        | cons m rest2 =>
          exact ⟨jescape k.data ++ '"' :: (':' :: (dumps_chars v ++
              ',' :: (dumps_members (m :: rest2) ++ cbrace :: rest))),
            by simp [dumps_members]⟩
      have harr : dumps_chars (.jobj ((k, v) :: kvs)) ++ rest = obrace :: ('"' :: R) := by
        simp only [dumps_chars, List.cons_append, List.append_assoc, List.cons.injEq, true_and]
        rw [← hR]
        simp
      rw [harr]
      unfold jdecode
      simp only [List.dropWhile_cons, show json_ws obrace = false from by decide,
        show json_ws '"' = false from rfl, Bool.false_eq_true, reduceIte,
        show (obrace = '"') = False from by decide,
        show ('"' = cbrace) = False from by decide]
      rw [← hR, hrec]

/-- Helper: the member decoder inverts serialized nonempty member lists up to
and including the closing brace. -/
theorem jdecode_members_dumps : ∀ (kvs : List (String × JVal)) (rest : List Char)
    (fuel : Nat), jfuel_members kvs ≤ fuel → kvs ≠ [] →
    jdecode_members fuel (dumps_members kvs ++ cbrace :: rest) = some (kvs, rest)
  | [], _, _, _, hne => absurd rfl hne
  | [(k, v)], rest, fuel, hf, _ => by
    cases fuel with
    | zero => simp [jfuel_members] at hf
    | succ f =>
      have hbv : jfuel v ≤ f := by simp [jfuel_members] at hf; omega
      have hval := jdecode_dumps v (cbrace :: rest) f hbv
        (Or.inr ⟨cbrace, rest, rfl, by decide⟩)
      have harr : dumps_members [(k, v)] ++ cbrace :: rest =
          '"' :: (jescape k.data ++ '"' :: (':' :: (dumps_chars v ++ cbrace :: rest))) := by
        simp [dumps_members]
      rw [harr]
      have hkey := jstr_body_jescape k.data (':' :: (dumps_chars v ++ cbrace :: rest))
          ((jescape k.data ++ '"' :: (':' :: (dumps_chars v ++ cbrace :: rest))).length + 1)
          (by have := jescape_length k.data
              simp only [List.length_append, List.length_cons]; omega)
      unfold jdecode_members
      simp only [List.dropWhile_cons, show json_ws '"' = false from rfl,
        Bool.false_eq_true, reduceIte]
      rw [hkey]
      simp only [List.dropWhile_cons, show json_ws ':' = false from rfl,
        Bool.false_eq_true, reduceIte]
      rw [hval]
      simp only [List.dropWhile_cons, show json_ws cbrace = false from by decide,
        Bool.false_eq_true, reduceIte, show (cbrace = ',') = False from by decide]
      rfl
  | (k, v) :: m :: kvs, rest, fuel, hf, _ => by
    cases fuel with
    | zero => simp [jfuel_members] at hf
    | succ f =>
      have hbv : jfuel v ≤ f := by simp [jfuel_members] at hf; omega
      have hbm : jfuel_members (m :: kvs) ≤ f := by
        simp [jfuel_members] at hf ⊢; omega
      have hval := jdecode_dumps v
        (',' :: (dumps_members (m :: kvs) ++ cbrace :: rest)) f hbv
        (Or.inr ⟨',', _, rfl, by decide⟩)
      have hrec := jdecode_members_dumps (m :: kvs) rest f hbm (by simp)
      have harr : dumps_members ((k, v) :: m :: kvs) ++ cbrace :: rest =
          '"' :: (jescape k.data ++ '"' :: (':' :: (dumps_chars v ++
            ',' :: (dumps_members (m :: kvs) ++ cbrace :: rest)))) := by
        simp [dumps_members]
      rw [harr]
      have hkey := jstr_body_jescape k.data
          (':' :: (dumps_chars v ++ ',' :: (dumps_members (m :: kvs) ++ cbrace :: rest)))
          ((jescape k.data ++ '"' :: (':' :: (dumps_chars v ++
            ',' :: (dumps_members (m :: kvs) ++ cbrace :: rest)))).length + 1)
          (by have := jescape_length k.data
              simp only [List.length_append, List.length_cons]; omega)
      unfold jdecode_members
      simp only [List.dropWhile_cons, show json_ws '"' = false from rfl,
        Bool.false_eq_true, reduceIte]
      rw [hkey]
      simp only [List.dropWhile_cons, show json_ws ':' = false from rfl,
        Bool.false_eq_true, reduceIte]
      rw [hval]
      simp only [List.dropWhile_cons, show json_ws ',' = false from rfl,
        Bool.false_eq_true, reduceIte]
      rw [hrec]

/-- Helper: the item decoder inverts serialized nonempty item lists up to and
including the closing bracket. -/
theorem jdecode_items_dumps : ∀ (xs : List JVal) (rest : List Char) (fuel : Nat),
    jfuel_items xs ≤ fuel → xs ≠ [] →
    jdecode_items fuel (dumps_items xs ++ ']' :: rest) = some (xs, rest)
  | [], _, _, _, hne => absurd rfl hne
  | [x], rest, fuel, hf, _ => by
    cases fuel with
    | zero => simp [jfuel_items] at hf
    | succ f =>
      have hbv : jfuel x ≤ f := by simp [jfuel_items] at hf; omega
      have hval := jdecode_dumps x (']' :: rest) f hbv
        (Or.inr ⟨']', rest, rfl, by decide⟩)
      have harr : dumps_items [x] ++ ']' :: rest = dumps_chars x ++ ']' :: rest := by
        simp [dumps_items]
      rw [harr]
      unfold jdecode_items
      rw [hval]
      simp only [List.dropWhile_cons, show json_ws ']' = false from rfl,
        Bool.false_eq_true, reduceIte, show (']' = ',') = False from by decide]
  | x :: w :: xs, rest, fuel, hf, _ => by
    cases fuel with
    | zero => simp [jfuel_items] at hf
    | succ f =>
      have hbv : jfuel x ≤ f := by simp [jfuel_items] at hf; omega
      have hbi : jfuel_items (w :: xs) ≤ f := by
        simp [jfuel_items] at hf ⊢; omega
      have hval := jdecode_dumps x
        (',' :: (dumps_items (w :: xs) ++ ']' :: rest)) f hbv
        (Or.inr ⟨',', _, rfl, by decide⟩)
      have hrec := jdecode_items_dumps (w :: xs) rest f hbi (by simp)
      have harr : dumps_items (x :: w :: xs) ++ ']' :: rest =
          dumps_chars x ++ ',' :: (dumps_items (w :: xs) ++ ']' :: rest) := by
        simp [dumps_items]
      rw [harr]
      unfold jdecode_items
      rw [hval]
      simp only [List.dropWhile_cons, show json_ws ',' = false from rfl,
        Bool.false_eq_true, reduceIte]
      rw [hrec]
end

mutual
/-- Helper: the decoder fuel is bounded by the serialized length. -/
theorem jfuel_le_dumps : ∀ v : JVal, jfuel v ≤ (dumps_chars v).length
  | .jnull => by simp [jfuel, dumps_chars]
  | .jbool true => by simp [jfuel, dumps_chars]
  | .jbool false => by simp [jfuel, dumps_chars]
  | .jnum n => by
    have h : dumps_chars (.jnum n) ≠ [] := by
      simp only [dumps_chars, int_chars]
      split
      · simp
      · exact nat_chars_ne_nil n.toNat
    simp only [jfuel]
    cases hd : dumps_chars (.jnum n) with
    | nil => exact absurd hd h
    | cons c t => simp
  | .jstr s => by simp [jfuel, dumps_chars]
  | .jarr xs => by
    have h := jfuel_items_le_dumps xs
    simp only [jfuel, dumps_chars]
    simp only [List.length_cons, List.length_append]
    omega
  | .jobj kvs => by
    have h := jfuel_members_le_dumps kvs
    simp only [jfuel, dumps_chars]
    simp only [List.length_cons, List.length_append]
    omega

/-- Helper: item-list fuel is bounded by serialized length plus one. -/
theorem jfuel_items_le_dumps : ∀ xs : List JVal,
    jfuel_items xs ≤ (dumps_items xs).length + 1
  | [] => by simp [jfuel_items, dumps_items]
  | [v] => by
    have h := jfuel_le_dumps v
    simp only [jfuel_items, dumps_items]
    omega
  | v :: w :: rest => by
    have h1 := jfuel_le_dumps v
    have h2 := jfuel_items_le_dumps (w :: rest)
    simp only [jfuel_items, dumps_items]
    simp only [List.length_append, List.length_cons]
    omega

/-- Helper: member-list fuel is bounded by serialized length plus one. -/
theorem jfuel_members_le_dumps : ∀ kvs : List (String × JVal),
    jfuel_members kvs ≤ (dumps_members kvs).length + 1
  | [] => by simp [jfuel_members, dumps_members]
  | [(k, v)] => by
    have h := jfuel_le_dumps v
    simp only [jfuel_members, dumps_members]
    simp only [List.length_append, List.length_cons]
    omega
  | (k, v) :: m :: rest => by
    have h1 := jfuel_le_dumps v
    have h2 := jfuel_members_le_dumps (m :: rest)
    simp only [jfuel_members, dumps_members]
    simp only [List.length_append, List.length_cons]
    omega
end

/-- Helper: the json.loads model decodes the canonical serialization of any
value back to that value. -/
theorem loads_dumps (v : JVal) : loads (dumps_chars v) = some v := by
  have h := jdecode_dumps v [] ((dumps_chars v).length + 1)
    (le_trans (jfuel_le_dumps v) (by omega)) (Or.inl rfl)
  simp only [List.append_nil] at h
  unfold loads
  rw [h]
  simp

/-- Helper: dropWhile stops at the head of the second block when that head
fails the predicate. -/
theorem dropWhile_append_stop (p : Char → Bool) (xs : List Char) (y : Char)
    (yt : List Char) (hy : p y = false) :
    (xs ++ y :: yt).dropWhile p = xs.dropWhile p ++ y :: yt := by
  induction xs with
  | nil => simp [List.dropWhile_cons, hy]
  | cons c cs ih =>
    by_cases hc : p c
    · simp [List.dropWhile_cons, hc, ih]
    · simp [List.dropWhile_cons, hc]

/-- Helper: dropWhile over an append whose first block does not vanish. -/
theorem dropWhile_append_of_ne_nil (p : Char → Bool) (l1 l2 : List Char)
    (h : l1.dropWhile p ≠ []) :
    (l1 ++ l2).dropWhile p = l1.dropWhile p ++ l2 := by
  induction l1 with
  | nil => simp [List.dropWhile_nil] at h
  | cons c cs ih =>
    by_cases hc : p c
    · have h2 : cs.dropWhile p ≠ [] := by
        simpa [List.dropWhile_cons, hc] using h
      simp [List.dropWhile_cons, hc, ih h2]
    · simp [List.dropWhile_cons, hc]

/-- Helper: dropWhile over an append whose first block vanishes. -/
theorem dropWhile_append_of_nil (p : Char → Bool) (l1 l2 : List Char)
    (h : l1.dropWhile p = []) :
    (l1 ++ l2).dropWhile p = l2.dropWhile p := by
  induction l1 with
  | nil => simp
  | cons c cs ih =>
    by_cases hc : p c
    · have h2 : cs.dropWhile p = [] := by
        simpa [List.dropWhile_cons, hc] using h
      simp [List.dropWhile_cons, hc, ih h2]
    · simp [List.dropWhile_cons, hc] at h

/-- Helper: dropWhile is idempotent. -/
theorem dropWhile_idem (p : Char → Bool) (l : List Char) :
    (l.dropWhile p).dropWhile p = l.dropWhile p := by
  induction l with
  | nil => rfl
  | cons c cs ih =>
    by_cases hc : p c
    · simp [List.dropWhile_cons, hc, ih]
    · simp [List.dropWhile_cons, hc]

/-- Helper: a right strip that keeps something commutes past a front
character. -/
theorem rstrip_cons_of_ne (c : Char) (t : List Char) (h : py_rstrip_chars t ≠ []) :
    py_rstrip_chars (c :: t) = c :: py_rstrip_chars t := by
  unfold py_rstrip_chars at *
  have h2 : t.reverse.dropWhile Char.isWhitespace ≠ [] := by
    intro hh
    exact h (by rw [hh]; rfl)
  rw [List.reverse_cons, dropWhile_append_of_ne_nil _ _ _ h2]
  simp

/-- Helper: a right strip of an all-whitespace remainder. -/
theorem rstrip_cons_of_nil (c : Char) (t : List Char) (h : py_rstrip_chars t = []) :
    py_rstrip_chars (c :: t) = if Char.isWhitespace c then [] else [c] := by
  unfold py_rstrip_chars at *
  have h2 : t.reverse.dropWhile Char.isWhitespace = [] := by
    rwa [List.reverse_eq_nil_iff] at h
  rw [List.reverse_cons, dropWhile_append_of_nil _ _ _ h2]
  by_cases hc : Char.isWhitespace c
  · simp [List.dropWhile_cons, hc]
  · simp [List.dropWhile_cons, hc]

/-- Helper: left and right stripping commute. -/
theorem lstrip_rstrip_comm (t : List Char) :
    py_lstrip_chars (py_rstrip_chars t) = py_rstrip_chars (py_lstrip_chars t) := by
  induction t with
  | nil => rfl
  | cons c t ih =>
    by_cases hc : Char.isWhitespace c
    · have hl : py_lstrip_chars (c :: t) = py_lstrip_chars t := by
        simp [py_lstrip_chars, List.dropWhile_cons, hc]
      rw [hl, ← ih]
      by_cases hr : py_rstrip_chars t = []
      · rw [rstrip_cons_of_nil c t hr, hr]
        simp [hc, py_lstrip_chars]
      · rw [rstrip_cons_of_ne c t hr]
        simp [py_lstrip_chars, List.dropWhile_cons, hc]
    · have hl : py_lstrip_chars (c :: t) = c :: t := by
        simp [py_lstrip_chars, List.dropWhile_cons, hc]
      rw [hl]
      by_cases hr : py_rstrip_chars t = []
      · rw [rstrip_cons_of_nil c t hr]
        simp [hc, py_lstrip_chars, List.dropWhile_cons]
      · rw [rstrip_cons_of_ne c t hr]
        simp [py_lstrip_chars, List.dropWhile_cons, hc]

/-- Helper: right stripping is idempotent. -/
theorem rstrip_idem (t : List Char) :
    py_rstrip_chars (py_rstrip_chars t) = py_rstrip_chars t := by
  unfold py_rstrip_chars
  rw [List.reverse_reverse, dropWhile_idem]

/-- Helper: stripping after a right strip equals stripping directly. -/
theorem strip_rstrip (t : List Char) :
    py_strip_chars (py_rstrip_chars t) = py_strip_chars t := by
  unfold py_strip_chars
  rw [lstrip_rstrip_comm, rstrip_idem]

/-- Helper: stripping a serialized object with trailing text strips only the
trailing side. -/
theorem strip_chars_glue (M t : List Char) :
    py_strip_chars ((obrace :: (M ++ [cbrace])) ++ t) =
      (obrace :: (M ++ [cbrace])) ++ py_rstrip_chars t := by
  have h1 : py_lstrip_chars ((obrace :: (M ++ [cbrace])) ++ t) =
      (obrace :: (M ++ [cbrace])) ++ t := by
    simp [py_lstrip_chars, List.dropWhile_cons,
      show Char.isWhitespace obrace = false from by decide]
  have h2 : ((obrace :: (M ++ [cbrace])) ++ t).reverse =
      t.reverse ++ cbrace :: (M.reverse ++ [obrace]) := by
    simp
  unfold py_strip_chars
  rw [h1]
  unfold py_rstrip_chars
  rw [h2, dropWhile_append_stop _ _ _ _
    (show Char.isWhitespace cbrace = false from by decide)]
  simp

/-- Helper: the fence stripper on a serialized object with trailing text only
right-strips the trailing side. -/
theorem strip_code_fences_obj (kvs : List (String × JVal)) (tail : String) :
    strip_code_fences (String.mk (dumps_chars (.jobj kvs)) ++ tail) =
      String.mk ((obrace :: (dumps_members kvs ++ [cbrace])) ++
        py_rstrip_chars tail.data) := by
  have hdata : (String.mk (dumps_chars (.jobj kvs)) ++ tail).data =
      (obrace :: (dumps_members kvs ++ [cbrace])) ++ tail.data := by
    simp [dumps_chars]
  have hsw : starts_with "```".data
      ((obrace :: (dumps_members kvs ++ [cbrace])) ++ py_rstrip_chars tail.data) = false := by
    simp [starts_with, show (('`' : Char) = obrace) = False from by decide]
  unfold strip_code_fences
  rw [hdata, strip_chars_glue]
  simp only [hsw, Bool.not_false, reduceIte]

/-- Claim C3 (amended): for every object and trailing text, extracting from
the canonical serialization followed by the trailing text returns a payload
deep-equal to the object together with the trailing text stripped of
surrounding whitespace (not verbatim: the source strips it).  Braces and
quotes inside string values are handled by the in-string scan state.  The
json_safe hypothesis keeps the statement within the domain where the
serialization is a genuine JSON document (no raw control characters). -/
theorem C3_extract_round_trip (kvs : List (String × JVal)) (tail : String)
    (_hsafe : json_safe (.jobj kvs) = true) :
    extract_first_json_object (String.mk (dumps_chars (.jobj kvs)) ++ tail) =
      .ok (.jobj kvs, py_strip tail) := by
  have hcand : (strip_code_fences (String.mk (dumps_chars (.jobj kvs)) ++ tail)).data =
      obrace :: ((dumps_members kvs ++ [cbrace]) ++ py_rstrip_chars tail.data) := by
    rw [strip_code_fences_obj]
    simp
  have hdrop : (obrace :: ((dumps_members kvs ++ [cbrace]) ++ py_rstrip_chars tail.data)).dropWhile
      (fun c => c ≠ obrace) =
      obrace :: ((dumps_members kvs ++ [cbrace]) ++ py_rstrip_chars tail.data) := by
    simp [List.dropWhile_cons]
  have hext : extract_first_json_object (String.mk (dumps_chars (.jobj kvs)) ++ tail) =
      extract_from_brace
        (obrace :: ((dumps_members kvs ++ [cbrace]) ++ py_rstrip_chars tail.data)) := by
    unfold extract_first_json_object
    rw [hcand, hdrop]
  rw [hext]
  have hscan : scan_all (dumps_members kvs) ⟨1, false, false⟩ = some ⟨1, false, false⟩ :=
    scan_dumps_members kvs 1 (le_refl 1)
  have hfe : find_end
      (obrace :: ((dumps_members kvs ++ [cbrace]) ++ py_rstrip_chars tail.data))
      ⟨0, false, false⟩ = some ((dumps_members kvs).length + 1) := by
    have hshape : (dumps_members kvs ++ [cbrace]) ++ py_rstrip_chars tail.data =
        dumps_members kvs ++ cbrace :: py_rstrip_chars tail.data := by simp
    have hstep : scan_step ⟨0, false, false⟩ obrace = some ⟨1, false, false⟩ := by
      simp [scan_step, obrace_ne_quote]
    have hbrk : scan_step ⟨1, false, false⟩ cbrace = none := by
      simp [scan_step, cbrace_ne_quote, cbrace_ne_obrace]
    rw [hshape]
    simp only [find_end, hstep]
    rw [find_end_append (dumps_members kvs) (cbrace :: py_rstrip_chars tail.data)
      _ _ hscan]
    simp only [find_end, hbrk]
    simp
  unfold extract_from_brace
  rw [hfe]
  have hlen : (dumps_members kvs).length + 1 + 1 =
      (obrace :: (dumps_members kvs ++ [cbrace])).length := by simp
  have htake : (obrace :: ((dumps_members kvs ++ [cbrace]) ++ py_rstrip_chars tail.data)).take
      ((dumps_members kvs).length + 1 + 1) = obrace :: (dumps_members kvs ++ [cbrace]) := by
    rw [show obrace :: ((dumps_members kvs ++ [cbrace]) ++ py_rstrip_chars tail.data) =
        (obrace :: (dumps_members kvs ++ [cbrace])) ++ py_rstrip_chars tail.data from by simp,
      hlen, List.take_left]
  have hdrop2 : (obrace :: ((dumps_members kvs ++ [cbrace]) ++ py_rstrip_chars tail.data)).drop
      ((dumps_members kvs).length + 1 + 1) = py_rstrip_chars tail.data := by
    rw [show obrace :: ((dumps_members kvs ++ [cbrace]) ++ py_rstrip_chars tail.data) =
        (obrace :: (dumps_members kvs ++ [cbrace])) ++ py_rstrip_chars tail.data from by simp,
      hlen, List.drop_left]
  simp only [htake, hdrop2]
  rw [show obrace :: (dumps_members kvs ++ [cbrace]) = dumps_chars (.jobj kvs) from by
    simp [dumps_chars]]
  rw [loads_dumps, strip_rstrip]
  rfl

/-- Claim C3 witness: an object whose string value contains a quote and both
braces round-trips through the extractor, with the trailing text stripped. -/
theorem C3_extract_round_trip_witness :
    json_safe (.jobj [("a", .jstr "q\"\x7b\x7dw")]) = true ∧
    extract_first_json_object
        (String.mk (dumps_chars (.jobj [("a", .jstr "q\"\x7b\x7dw")])) ++ " tail ") =
      .ok (.jobj [("a", .jstr "q\"\x7b\x7dw")], py_strip " tail ") :=
  ⟨by decide, C3_extract_round_trip [("a", .jstr "q\"\x7b\x7dw")] " tail " (by decide)⟩
